import Mathlib

/-!
The payload generator of khidden-file-sender.

A shallow embedding of `src/fs/payload_generator.c` and `payload_generator.h`:
the file chunker `read_file_chunks`, the worker step `process_next_pending_file`
and the hand-off function `generate_payload`, followed by theorems about them.

Conventions of the embedding.

* Target ABI: x86-64 Linux (LP64, little endian). `size_t` is an unsigned and
  `ssize_t`/`loff_t` a signed 64-bit integer. Values are `Nat`/`Int`; an unsigned
  result is reduced modulo `2 ^ 64` where the C code computes it.
* Memory is a `List Byte`. Freshly allocated memory has arbitrary contents, which
  the environment supplies (`heap_garbage`, `stack_garbage`).
* Everything the kernel decides is a field of `Env`: whether the n-th `kmalloc`
  succeeds, what `filp_open` and `vfs_llseek` give, and what the n-th `vfs_read`
  returns. The state counts the calls made so far.
* The `while` loop of `read_file_chunks` need not terminate (a read may return 0
  for ever), so it is run with a fuel argument and returns `none` when the fuel
  is used up before the loop condition becomes false.
-/

namespace PayloadGenerator

/-! ## Bytes, integers and memory -/

/-- One `char` of memory. -/
abbrev Byte := Fin 256

/-- Modulus of `size_t` (64 bits). -/
def SIZE_T_MOD : Nat := 2 ^ 64

/-- Largest value of `loff_t` plus one (`loff_t` is a signed 64-bit integer). -/
def LOFF_T_LIMIT : Nat := 2 ^ 63

/-- Errno `EINVAL`. -/
def EINVAL : Int := 22

/-- Errno for an input/output error. -/
def EIO : Int := 5

/-- Conversion of a signed value to `size_t`, as the cast `(size_t)x` does. -/
def to_size_t (x : Int) : Nat := (x % (SIZE_T_MOD : Int)).toNat

/-- The in-memory bytes of a `size_t` (little endian, 8 bytes). -/
def size_t_bytes (v : Nat) : List Byte :=
  (List.range 8).map (fun i => Fin.ofNat (v / 256 ^ i))

/-- The `size_t` that 8 little-endian bytes hold. -/
def size_t_of_bytes (bs : List Byte) : Nat :=
  bs.foldr (fun b acc => b.val + 256 * acc) 0

/-- C `memcpy(dst + off, src, n)`: the first `n` bytes of `src` replace the bytes
`off .. off + n - 1` of `dst`. In bounds (`off + n ≤ dst.length`, `n ≤ src.length`)
the length of `dst` is kept. A copy that runs past the end of `dst` extends the
list with the bytes written there, and a copy that runs past the end of `src`
copies what `src` has. -/
def memcpy (dst : List Byte) (off : Nat) (src : List Byte) (n : Nat) : List Byte :=
  dst.take off ++ src.take n ++ dst.drop (off + n)

/-- The bytes of a C string up to its terminating zero byte. -/
def c_str (p : List Byte) : List Byte := p.takeWhile (fun b => b ≠ 0)

/-- C `strlen`. -/
def strlen (p : List Byte) : Nat := (c_str p).length

/-! ## Constants and types of `payload_generator.h` -/

/-- Size of one payload chunk, in bytes. -/
def DEFAULT_PAYLOAD_CHUNKS_SIZE : Nat := 64

/-- The marker written at the start of the first chunk of a file. -/
def DEFAULT_NEW_FILE_SIGNATURE : List Byte :=
  [0xDE, 0xAD, 0xBE, 0xEF, 0xDE, 0xAD, 0xBE, 0xEF]

/-- Value of `sizeof(DEFAULT_NEW_FILE_SIGNATURE)`. -/
def sizeof_DEFAULT_NEW_FILE_SIGNATURE : Nat := 8

/-- Value of `sizeof(struct new_file_signature)`: `char signature[4]`, 4 bytes of
padding, then the 8-byte aligned `size_t file_size`. -/
def sizeof_new_file_signature : Nat := 16

/-- Offset of the field `file_size` in `struct new_file_signature`. -/
def offsetof_file_size : Nat := 8

/-- Value of `sizeof(struct file_chunk)`: a pointer, a `size_t` and a `list_head`. -/
def sizeof_file_chunk : Nat := 32

/-- A `struct file_chunk`: the data buffer and the number of valid bytes. -/
structure file_chunk where
  data : List Byte
  chunk_size : Nat
deriving DecidableEq, Repr

/-- A `struct file_metadata`: the path of a requested file (the bytes before the
terminating zero). -/
structure file_metadata where
  file_path : List Byte
deriving DecidableEq, Repr

/-- The bytes of a chunk that are sent: the first `chunk_size` bytes of `data`. -/
def file_chunk.payload (c : file_chunk) : List Byte := c.data.take c.chunk_size

/-- Implementation of `get_default_payload_chunk_size`. -/
def get_default_payload_chunk_size : Nat := DEFAULT_PAYLOAD_CHUNKS_SIZE

/-! ## The kernel environment and the module state -/

/-- What the VFS gives for one opened file. -/
structure File where
  /-- the bytes of the file -/
  content : List Byte
  /-- result of `vfs_llseek(filp, 0, SEEK_END)` -/
  llseek_end : Int
  /-- result of `vfs_llseek(filp, 0, 0)` -/
  llseek_set : Int

/-- The kernel as the module sees it. -/
structure Env where
  /-- whether the n-th call of `kmalloc` returns memory -/
  kmalloc_ok : Nat → Bool
  /-- the initial byte `i` of the memory the n-th `kmalloc` returns -/
  heap_garbage : Nat → Nat → Byte
  /-- the initial byte `i` of the local `struct new_file_signature` -/
  stack_garbage : Nat → Byte
  /-- result of `filp_open(path, O_RDONLY, 0)`: `none` is an error pointer -/
  filp_open : List Byte → Option File
  /-- return value of the n-th call of `vfs_read`, given the count it asks for -/
  vfs_read_ret : Nat → Nat → Int

/-- The global state of the module, with the number of kernel calls made. -/
structure State where
  g_chunk_list : List file_chunk
  /-- whether `g_chunk_list_spinlock` is held -/
  g_chunk_list_spinlock : Bool
  g_requestd_files_list : List file_metadata
  n_kmalloc : Nat
  n_vfs_read : Nat

/-- Kernel `kmalloc(size, flags)`: `none` is `NULL`. -/
def kmalloc (env : Env) (st : State) (size : Nat) : Option (List Byte) × State :=
  let st1 := { st with n_kmalloc := st.n_kmalloc + 1 }
  if env.kmalloc_ok st.n_kmalloc then
    (some ((List.range size).map (env.heap_garbage st.n_kmalloc)), st1)
  else
    (none, st1)

/-- Kernel `vfs_read(filp, buf + off, count, &pos)`. A negative return value is an
error: nothing is copied and `pos` stays. Otherwise the returned number of bytes
is copied from the file at `pos`, and `pos` advances by it. The return value is
the environment's; a theorem that needs it to be at most `count` assumes so. -/
def vfs_read (env : Env) (f : File) (st : State) (buf : List Byte) (off : Nat)
    (count : Nat) (pos : Int) : Int × List Byte × Int × State :=
  let r := env.vfs_read_ret st.n_vfs_read count
  let st1 := { st with n_vfs_read := st.n_vfs_read + 1 }
  if r < 0 then
    (r, buf, pos, st1)
  else
    (r, memcpy buf off (f.content.drop pos.toNat) r.toNat, pos + r, st1)

/-! ## `read_file_chunks` -/

/-- The local `struct new_file_signature` after
`signature.file_size = file_size` and
`memcpy(signature.signature, DEFAULT_NEW_FILE_SIGNATURE, sizeof(DEFAULT_NEW_FILE_SIGNATURE))`.
The copy of 8 bytes into `signature[4]` also fills the 4 bytes of padding. -/
def build_signature (env : Env) (file_size : Int) : List Byte :=
  let signature := (List.range sizeof_new_file_signature).map env.stack_garbage
  let signature := memcpy signature offsetof_file_size (size_t_bytes (to_size_t file_size)) 8
  memcpy signature 0 DEFAULT_NEW_FILE_SIGNATURE sizeof_DEFAULT_NEW_FILE_SIGNATURE

/-- One pass through the body of the `while` loop after both allocations succeeded:
gives the chunk that is enqueued, the new `current_position` and the new state. -/
def fill_chunk (env : Env) (f : File) (file_size : Int) (current_position : Int)
    (is_first_chunk : Bool) (data : List Byte) (st : State) : file_chunk × Int × State :=
  let chunk_size : Nat := 0
  let offset_in_buffer : Nat := 0
  let available_space_in_chunk : Nat := get_default_payload_chunk_size
  let data := if is_first_chunk then
      memcpy data 0 (build_signature env file_size) sizeof_new_file_signature else data
  let chunk_size := if is_first_chunk then
      (chunk_size + sizeof_new_file_signature) % SIZE_T_MOD else chunk_size
  let offset_in_buffer := if is_first_chunk then
      (offset_in_buffer + sizeof_new_file_signature) % SIZE_T_MOD else offset_in_buffer
  let available_space_in_chunk := if is_first_chunk then
      (available_space_in_chunk + SIZE_T_MOD - sizeof_new_file_signature) % SIZE_T_MOD
    else available_space_in_chunk
  let size_to_read : Nat :=
    min available_space_in_chunk (to_size_t (file_size - current_position))
  let (size_read, data, current_position, st) :=
    vfs_read env f st data offset_in_buffer size_to_read current_position
  let chunk_size := to_size_t ((chunk_size : Int) + size_read)
  let new_chunk : file_chunk := { data := data, chunk_size := chunk_size }
  (new_chunk, current_position,
    { st with g_chunk_list := st.g_chunk_list ++ [new_chunk] })

/-- The `while (current_position < file_size)` loop of `read_file_chunks`.
Leaving the loop (condition false, or `goto cleanup` after a failed allocation)
gives `some` final state; `none` means the fuel ran out first. The chunk is
appended under `g_chunk_list_spinlock`, which is taken and released again, so the
lock flag is the same before and after. -/
def read_file_chunks_loop (env : Env) (f : File) (file_size : Int) :
    Nat → Int → Bool → State → Option State
  | 0, current_position, _, st =>
    if current_position < file_size then none else some st
  | fuel + 1, current_position, is_first_chunk, st =>
    if current_position < file_size then
      match kmalloc env st sizeof_file_chunk with
      | (none, st1) => some st1
      | (some _, st1) =>
        match kmalloc env st1 get_default_payload_chunk_size with
        | (none, st2) => some st2
        | (some data, st2) =>
          let (_, current_position, st3) :=
            fill_chunk env f file_size current_position is_first_chunk data st2
          read_file_chunks_loop env f file_size fuel current_position false st3
    else some st

/-- Implementation of `read_file_chunks(file_path)`. -/
def read_file_chunks (env : Env) (fuel : Nat) (file_path : List Byte) (st : State) :
    Option State :=
  match env.filp_open file_path with
  | none => some st
  | some f =>
    let file_size := f.llseek_end
    let current_position := f.llseek_set
    if 0 ≠ current_position then some st
    else read_file_chunks_loop env f file_size fuel current_position true st

/-! ## `process_next_pending_file` -/

/-- Implementation of `process_next_pending_file()`. The copy of the path is made in
the `strlen` bytes that `kmalloc` returned; `memcpy` writes `strlen + 1` bytes, and
the model keeps the byte written past the end (see `memcpy`), so that the path
handed to `read_file_chunks` is the C string the code reads back. -/
def process_next_pending_file (env : Env) (fuel : Nat) (st : State) : Option State :=
  match st.g_requestd_files_list with
  | [] => some st
  | next_pending_file :: rest =>
    let next_pending_file_path_length := strlen next_pending_file.file_path
    match kmalloc env st next_pending_file_path_length with
    | (none, st1) => some st1
    | (some file_path, st1) =>
      let file_path := memcpy file_path 0 (next_pending_file.file_path ++ [0])
        (next_pending_file_path_length + 1)
      let file_path := file_path.take next_pending_file_path_length ++ [0] ++
        file_path.drop (next_pending_file_path_length + 1)
      let st2 := { st1 with g_requestd_files_list := rest }
      read_file_chunks env fuel (c_str file_path) st2

/-! ## `generate_payload` -/

/-- What a call of `generate_payload(buffer, length)` leaves behind: the return
value, the caller's buffer, the caller's length cell and the module state. -/
structure Outcome where
  ret : Int
  buffer : Option (List Byte)
  length : Nat
  st : State

/-- Implementation of `generate_payload(buffer, length)`. `buffer = none` is a `NULL`
buffer; `length` is the value of `*length` before the call. -/
def generate_payload (buffer : Option (List Byte)) (length : Nat) (st : State) : Outcome :=
  match buffer with
  | none => { ret := - EINVAL, buffer := none, length := length, st := st }
  | some buf =>
    if st.g_chunk_list_spinlock then
      { ret := - EIO, buffer := some buf, length := length, st := st }
    else
      match st.g_chunk_list with
      | [] => { ret := 0, buffer := some buf, length := length, st := st }
      | next_chunk :: rest =>
        { ret := 0
          buffer := some (memcpy buf 0 next_chunk.data next_chunk.chunk_size)
          length := next_chunk.chunk_size
          st := { st with g_chunk_list := rest } }

/-! ## Vocabulary of the statements -/

/-- The header that `read_file_chunks` writes for a file of `S` bytes. -/
def file_header (S : Nat) : List Byte := DEFAULT_NEW_FILE_SIGNATURE ++ size_t_bytes S

/-- Every `kmalloc` returns memory. -/
def allocs_succeed (env : Env) : Prop := ∀ n, env.kmalloc_ok n = true

/-- Every `vfs_read` returns exactly the number of bytes it is asked for. -/
def reads_exact (env : Env) : Prop := ∀ n count, env.vfs_read_ret n count = (count : Int)

/-- Every `vfs_read` that is asked for at least one byte returns at least one byte
and at most the number asked for. -/
def reads_progress (env : Env) : Prop :=
  ∀ n count, 1 ≤ count → 1 ≤ env.vfs_read_ret n count ∧ env.vfs_read_ret n count ≤ (count : Int)

/-- A file whose size, as `vfs_llseek` reports it, is the length of its content and
fits `loff_t`, and which seeks back to offset 0. -/
def regular_file (f : File) : Prop :=
  f.llseek_end = (f.content.length : Int) ∧ f.llseek_set = 0 ∧ f.content.length < LOFF_T_LIMIT

/-- Consecutive pieces of `C` bytes of `l` (the last one may be shorter). -/
def pieces (C : Nat) (l : List Byte) : List (List Byte) :=
  (List.range ((l.length + (C - 1)) / C)).map (fun i => (l.drop (C * i)).take C)

/-- Ceiling of `a / b` for natural numbers. -/
def ceil_div (a b : Nat) : Nat := (a + (b - 1)) / b

/-- What a receiver does with the chunks of one file: it strips the header from
the first chunk and concatenates the data bytes of all chunks, in order. -/
def reassemble (cs : List file_chunk) : List Byte :=
  match cs with
  | [] => []
  | c :: rest => c.payload.drop sizeof_new_file_signature ++ (rest.map file_chunk.payload).flatten

/-- A file of `n` bytes `0, 1, 2, ...` that opens and seeks normally. -/
def demo_file (n : Nat) : File :=
  { content := (List.range n).map (fun i => Fin.ofNat i), llseek_end := n, llseek_set := 0 }

/-- A kernel in which every allocation succeeds, every read is complete and
every path opens the file `f`. -/
def demo_env (f : File) : Env :=
  { kmalloc_ok := fun _ => true
    heap_garbage := fun _ _ => 0xAA
    stack_garbage := fun _ => 0xBB
    filp_open := fun _ => some f
    vfs_read_ret := fun _ count => count }

/-- The kernel of `demo_env`, except that a read returns at most `k` bytes. -/
def demo_env_short (f : File) (k : Nat) : Env :=
  { demo_env f with vfs_read_ret := fun _ count => ((min k count : Nat) : Int) }

/-- A file of 56 bytes whose bytes 48..55 are the bytes of the marker. -/
def marker_file : File :=
  { content := List.replicate 48 0 ++ DEFAULT_NEW_FILE_SIGNATURE, llseek_end := 56,
    llseek_set := 0 }

/-- The module state after loading: both queues empty, lock free. -/
def demo_state : State :=
  { g_chunk_list := [], g_chunk_list_spinlock := false, g_requestd_files_list := [],
    n_kmalloc := 0, n_vfs_read := 0 }

/-- The kernel of `demo_env`, except that the `i`-th read (counting from 0) fails
and returns `-e`. -/
def demo_env_error (f : File) (i : Nat) (e : Int) : Env :=
  { demo_env f with vfs_read_ret := fun n count => if n = i then - e else (count : Int) }

/-- A destination buffer of 64 zero bytes. -/
def demo_buffer : List Byte := List.replicate 64 0

/-- The state `demo_state` with one chunk of 4 bytes queued. -/
def one_chunk_state : State := { demo_state with g_chunk_list := [⟨[1, 2, 3, 4], 4⟩] }

/-- The state `demo_state` with a chunk of 4 bytes and a chunk of 2 bytes queued. -/
def two_chunk_state : State :=
  { demo_state with g_chunk_list := [⟨[1, 2, 3, 4], 4⟩, ⟨[5, 6, 7], 2⟩] }

/-- The outcome of a first call of `generate_payload` on `one_chunk_state`. -/
def first_call : Outcome := generate_payload (some demo_buffer) 0 one_chunk_state

/-- A caller of `generate_payload`: it calls `n` times with the same buffer, sets the
length cell to 0 before each call, and records the bytes each call handed over
(the first `*length` bytes of the buffer). -/
def drain : Nat → List Byte → State → List (List Byte) × State
  | 0, _, st => ([], st)
  | n + 1, buf, st =>
    let out := generate_payload (some buf) 0 st
    let buf1 := out.buffer.getD buf
    let rec_ := drain n buf1 out.st
    (buf1.take out.length :: rec_.1, rec_.2)

/-- The kernel `env` with every allocation succeeding. -/
def no_alloc_failure (env : Env) : Env := { env with kmalloc_ok := fun _ => true }

/-- A kernel in which the path `[97]` opens a file of 100 bytes and every other path
a file of 70 bytes; allocations succeed and reads are complete. -/
def two_file_env : Env :=
  { demo_env (demo_file 70) with
    filp_open := fun p => if p = [97] then some (demo_file 100) else some (demo_file 70) }

/-- The state after loading with requests for the paths `[97]` and `[98]` pending. -/
def two_request_state : State :=
  { demo_state with g_requestd_files_list := [⟨[97]⟩, ⟨[98]⟩] }

/-- The kernel of `demo_env`, except that the `i`-th `kmalloc` (counting from 0)
fails. -/
def demo_env_alloc_failure (f : File) (i : Nat) : Env :=
  { demo_env f with kmalloc_ok := fun n => decide (n ≠ i) }

/-- The bytes that the chunks of a file carry, in order: nothing for an empty
file, else the header followed by the content. -/
def file_stream (f : File) : List Byte :=
  if f.content.length = 0 then [] else file_header f.content.length ++ f.content

/-- The state `one_chunk_state` with `g_chunk_list_spinlock` held. -/
def locked_state : State := { one_chunk_state with g_chunk_list_spinlock := true }

/-- The size that `process_next_pending_file` passes to `kmalloc` for its local copy
of the path `p`: `strlen(next_pending_file->file_path)`. -/
def file_path_alloc_size (p : List Byte) : Nat := strlen p

/-- The indices of the local copy that `process_next_pending_file` writes, in order:
`memcpy(file_path, ..., next_pending_file_path_length + 1)` writes the indices
`0 .. next_pending_file_path_length`, then
`file_path[next_pending_file_path_length] = 0x00` writes the last of them again. -/
def file_path_write_indices (p : List Byte) : List Nat :=
  List.range (strlen p + 1) ++ [strlen p]

/-- The path `/tmp/abc` (8 bytes). -/
def demo_path : List Byte := [47, 116, 109, 112, 47, 97, 98, 99]

/-- The lengths of the chunks of a byte stream of `n` bytes that is cut into pieces
of `C` bytes: piece `i` has `min C (n - C * i)` bytes. -/
def piece_lengths (C n : Nat) : List Nat :=
  (List.range (ceil_div n C)).map (fun i => min C (n - C * i))

/-- Every `vfs_read` returns 0 bytes. -/
def reads_zero (env : Env) : Prop := ∀ n count, env.vfs_read_ret n count = 0

/-- The kernel of `demo_env`, except that every read returns 0 bytes. -/
def demo_env_zero (f : File) : Env :=
  { demo_env f with vfs_read_ret := fun _ _ => 0 }

/-! ## Memory and integer lemmas -/

theorem size_t_bytes_length (v : Nat) : (size_t_bytes v).length = 8 := by
  simp [size_t_bytes]

theorem size_t_of_bytes_bytes (v : Nat) (h : v < SIZE_T_MOD) :
    size_t_of_bytes (size_t_bytes v) = v := by
  simp only [SIZE_T_MOD] at h
  simp [size_t_of_bytes, size_t_bytes, List.range_succ, Fin.ofNat]
  omega

theorem build_signature_eq (env : Env) (file_size : Int) :
    build_signature env file_size =
      DEFAULT_NEW_FILE_SIGNATURE ++ size_t_bytes (to_size_t file_size) := by
  have hb := size_t_bytes_length (to_size_t file_size)
  simp only [build_signature, memcpy, sizeof_new_file_signature, offsetof_file_size,
    sizeof_DEFAULT_NEW_FILE_SIGNATURE, DEFAULT_NEW_FILE_SIGNATURE]
  generalize size_t_bytes (to_size_t file_size) = B at hb
  simp [List.range_succ, List.take_of_length_le, hb]

theorem to_size_t_natCast (n : Nat) (h : n < SIZE_T_MOD) : to_size_t (n : Int) = n := by
  unfold to_size_t
  rw [Int.emod_eq_of_lt (by omega) (by exact_mod_cast h)]
  simp

theorem file_header_length (S : Nat) : (file_header S).length = 16 := by
  simp [file_header, size_t_bytes_length, DEFAULT_NEW_FILE_SIGNATURE]

theorem memcpy_header (data H src : List Byte) (r : Nat) (hH : H.length = 16) :
    memcpy (memcpy data 0 H 16) 16 src r = H ++ src.take r ++ data.drop (16 + r) := by
  have e1 : memcpy data 0 H 16 = H ++ data.drop 16 := by
    simp [memcpy, List.take_of_length_le, hH]
  rw [e1]
  unfold memcpy
  have e2 : (H ++ data.drop 16).take 16 = H := by
    rw [List.take_append_of_le_length (by omega)]
    exact List.take_of_length_le (by omega)
  have e3 : (H ++ data.drop 16).drop (16 + r) = data.drop (16 + r) := by
    have : 16 + r = H.length + r := by omega
    rw [this, List.drop_append, List.drop_drop, hH, Nat.add_comm]
  rw [e2, e3]

theorem vfs_read_ok (env : Env) (f : File) (st : State) (buf : List Byte) (off count r : Nat)
    (pos : Int) (hr : env.vfs_read_ret st.n_vfs_read count = (r : Int)) :
    vfs_read env f st buf off count pos =
      ((r : Int), memcpy buf off (f.content.drop pos.toNat) r, pos + r,
        { st with n_vfs_read := st.n_vfs_read + 1 }) := by
  have hneg : ¬ ((r : Int) < 0) := by omega
  simp only [vfs_read, hr, hneg, if_false, Int.toNat_ofNat]

theorem fill_chunk_first (env : Env) (f : File) (st : State) (data : List Byte) (S r : Nat)
    (hlim : S < LOFF_T_LIMIT)
    (hr : env.vfs_read_ret st.n_vfs_read (min 48 S) = (r : Int)) (hrle : r ≤ min 48 S) :
    fill_chunk env f (S : Int) 0 true data st =
      (⟨file_header S ++ f.content.take r ++ data.drop (16 + r), 16 + r⟩, (r : Int),
        { st with
          n_vfs_read := st.n_vfs_read + 1
          g_chunk_list := st.g_chunk_list ++
            [⟨file_header S ++ f.content.take r ++ data.drop (16 + r), 16 + r⟩] }) := by
  have hS2 : S < SIZE_T_MOD := by simp only [LOFF_T_LIMIT, SIZE_T_MOD] at *; omega
  have h1 : to_size_t ((S : Int) - 0) = S := by
    rw [sub_zero]; exact to_size_t_natCast S hS2
  have h2 : to_size_t (((16 : Nat) : Int) + (r : Int)) = 16 + r := by
    have : (((16 : Nat) : Int) + (r : Int)) = ((16 + r : Nat) : Int) := by push_cast; ring
    rw [this]; apply to_size_t_natCast; simp only [SIZE_T_MOD]; omega
  have e1 : (0 + 16) % SIZE_T_MOD = 16 := by simp [SIZE_T_MOD]
  have e2 : (64 + SIZE_T_MOD - 16) % SIZE_T_MOD = 48 := by simp [SIZE_T_MOD]
  simp only [fill_chunk, get_default_payload_chunk_size, DEFAULT_PAYLOAD_CHUNKS_SIZE,
    sizeof_new_file_signature, if_true, build_signature_eq, h1, e1, e2]
  rw [vfs_read_ok env f st _ 16 (min 48 S) r 0 hr]
  simp only [h2, to_size_t_natCast S hS2]
  have hd := memcpy_header data (file_header S) (List.drop (Int.toNat 0) f.content) r
    (file_header_length S)
  simp only [file_header] at hd ⊢
  rw [hd]
  simp

theorem fill_chunk_later (env : Env) (f : File) (st : State) (data : List Byte) (S p r : Nat)
    (hlim : S < LOFF_T_LIMIT) (hp : p < S)
    (hr : env.vfs_read_ret st.n_vfs_read (min 64 (S - p)) = (r : Int))
    (hrle : r ≤ min 64 (S - p)) :
    fill_chunk env f (S : Int) (p : Int) false data st =
      (⟨(f.content.drop p).take r ++ data.drop r, r⟩, ((p + r : Nat) : Int),
        { st with
          n_vfs_read := st.n_vfs_read + 1
          g_chunk_list := st.g_chunk_list ++ [⟨(f.content.drop p).take r ++ data.drop r, r⟩] }) := by
  have hS2 : S - p < SIZE_T_MOD := by simp only [LOFF_T_LIMIT, SIZE_T_MOD] at *; omega
  have h1 : to_size_t ((S : Int) - (p : Int)) = S - p := by
    have : (S : Int) - (p : Int) = ((S - p : Nat) : Int) := by omega
    rw [this]; exact to_size_t_natCast _ hS2
  simp only [fill_chunk, get_default_payload_chunk_size, DEFAULT_PAYLOAD_CHUNKS_SIZE, h1,
    Bool.false_eq_true, if_false]
  rw [vfs_read_ok env f st _ 0 (min 64 (S - p)) r p hr]
  have h3 : to_size_t (r : Int) = r := by
    apply to_size_t_natCast; simp only [SIZE_T_MOD]; omega
  simp [h3, memcpy]

theorem pieces_nil (C : Nat) (hC : 0 < C) : pieces C [] = [] := by
  have : (C - 1) / C = 0 := Nat.div_eq_of_lt (by omega)
  simp [pieces, this]

theorem pieces_cons (C : Nat) (hC : 0 < C) (l : List Byte) (hl : l ≠ []) :
    pieces C l = l.take C :: pieces C (l.drop C) := by
  have hlen : 0 < l.length := List.length_pos.mpr hl
  have hk : (l.length + (C - 1)) / C = ((l.drop C).length + (C - 1)) / C + 1 := by
    rw [List.length_drop]
    by_cases h : C ≤ l.length
    · have : l.length + (C - 1) = (l.length - C + (C - 1)) + C := by omega
      rw [this, Nat.add_div_right _ hC]
    · have h1 : l.length - C = 0 := by omega
      rw [h1]
      have h2 : (0 + (C - 1)) / C = 0 := Nat.div_eq_of_lt (by omega)
      have h3 : l.length + (C - 1) = (l.length - 1) + C := by omega
      rw [h2, h3, Nat.add_div_right _ hC, Nat.div_eq_of_lt (by omega)]
  unfold pieces
  rw [hk, List.range_succ_eq_map]
  simp [List.map_map, Function.comp_def, Nat.mul_succ, List.drop_drop, Nat.add_comm]

theorem kmalloc_of_ok (env : Env) (st : State) (size : Nat) (h : env.kmalloc_ok st.n_kmalloc = true) :
    kmalloc env st size =
      (some ((List.range size).map (env.heap_garbage st.n_kmalloc)),
        { st with n_kmalloc := st.n_kmalloc + 1 }) := by
  simp [kmalloc, h]

theorem kmalloc_of_fail (env : Env) (st : State) (size : Nat) (h : env.kmalloc_ok st.n_kmalloc = false) :
    kmalloc env st size = (none, { st with n_kmalloc := st.n_kmalloc + 1 }) := by
  simp [kmalloc, h]

theorem fill_chunk_later_spec (env : Env) (f : File) (st : State) (data : List Byte)
    (S p r : Nat) (hS : f.content.length = S) (hlim : S < LOFF_T_LIMIT) (hp : p < S)
    (hr : env.vfs_read_ret st.n_vfs_read (min 64 (S - p)) = (r : Int))
    (hrle : r ≤ min 64 (S - p)) :
    ∃ c : file_chunk, fill_chunk env f (S : Int) (p : Int) false data st =
        (c, ((p + r : Nat) : Int),
          { st with n_vfs_read := st.n_vfs_read + 1, g_chunk_list := st.g_chunk_list ++ [c] }) ∧
      c.chunk_size = r ∧ c.payload = (f.content.drop p).take r ∧ c.payload.length = r := by
  refine ⟨_, fill_chunk_later env f st data S p r hlim hp hr hrle, rfl, ?_⟩
  have hlen : ((f.content.drop p).take r).length = r := by
    simp [List.length_take, List.length_drop]; omega
  have e : (⟨(f.content.drop p).take r ++ data.drop r, r⟩ : file_chunk).payload =
      (f.content.drop p).take r := by
    simp only [file_chunk.payload]
    rw [List.take_append_of_le_length (by omega), List.take_of_length_le (by omega)]
  rw [e]
  exact ⟨rfl, hlen⟩

theorem fill_chunk_first_spec (env : Env) (f : File) (st : State) (data : List Byte)
    (S r : Nat) (hS : f.content.length = S) (hlim : S < LOFF_T_LIMIT)
    (hr : env.vfs_read_ret st.n_vfs_read (min 48 S) = (r : Int)) (hrle : r ≤ min 48 S) :
    ∃ c : file_chunk, fill_chunk env f (S : Int) 0 true data st =
        (c, (r : Int),
          { st with n_vfs_read := st.n_vfs_read + 1, g_chunk_list := st.g_chunk_list ++ [c] }) ∧
      c.chunk_size = 16 + r ∧ c.payload = file_header S ++ f.content.take r ∧
      c.payload.length = 16 + r := by
  refine ⟨_, fill_chunk_first env f st data S r hlim hr hrle, rfl, ?_⟩
  have hlen : (file_header S ++ f.content.take r).length = 16 + r := by
    simp [List.length_take, file_header_length]; omega
  have e : (⟨file_header S ++ f.content.take r ++ data.drop (16 + r), 16 + r⟩ :
      file_chunk).payload = file_header S ++ f.content.take r := by
    simp only [file_chunk.payload]
    rw [List.take_append_of_le_length (by omega), List.take_of_length_le (by omega)]
  rw [e]
  exact ⟨rfl, hlen⟩

theorem loop_exit (env : Env) (f : File) (file_size : Int) (fuel : Nat) (pos : Int)
    (first : Bool) (st : State) (h : ¬ pos < file_size) :
    read_file_chunks_loop env f file_size fuel pos first st = some st := by
  cases fuel <;> simp [read_file_chunks_loop, h]

theorem loop_step (env : Env) (f : File) (file_size : Int) (fuel : Nat) (pos : Int)
    (first : Bool) (st : State) (h : pos < file_size)
    (h1 : env.kmalloc_ok st.n_kmalloc = true) (h2 : env.kmalloc_ok (st.n_kmalloc + 1) = true) :
    read_file_chunks_loop env f file_size (fuel + 1) pos first st =
      read_file_chunks_loop env f file_size fuel
        (fill_chunk env f file_size pos first
          ((List.range get_default_payload_chunk_size).map (env.heap_garbage (st.n_kmalloc + 1)))
          { st with n_kmalloc := st.n_kmalloc + 1 + 1 }).2.1 false
        (fill_chunk env f file_size pos first
          ((List.range get_default_payload_chunk_size).map (env.heap_garbage (st.n_kmalloc + 1)))
          { st with n_kmalloc := st.n_kmalloc + 1 + 1 }).2.2 := by
  rw [read_file_chunks_loop, if_pos h, kmalloc_of_ok env st _ h1]
  simp only
  rw [kmalloc_of_ok env _ _ h2]

theorem reads_exact_progress (env : Env) (h : reads_exact env) : reads_progress env := by
  intro n count hc
  rw [h n count]
  omega

theorem drop_exact_step (l : List Byte) (S p : Nat) (hS : l.length = S) (hp : p ≤ S) :
    (l.drop p).drop 64 = l.drop (p + min 64 (S - p)) := by
  rw [List.drop_drop]
  by_cases h : 64 ≤ S - p
  · rw [Nat.min_eq_left h, Nat.add_comm]
  · rw [Nat.min_eq_right (by omega)]
    rw [List.drop_of_length_le (by omega), List.drop_of_length_le (by omega)]

theorem take_exact_step (l : List Byte) (S p : Nat) (hS : l.length = S) :
    (l.drop p).take (min 64 (S - p)) = (l.drop p).take 64 := by
  by_cases h : 64 ≤ S - p
  · rw [Nat.min_eq_left h]
  · rw [Nat.min_eq_right (by omega)]
    rw [List.take_of_length_le (by simp [List.length_drop]; omega),
      List.take_of_length_le (by simp [List.length_drop]; omega)]

/-- Invariant of the loop of `read_file_chunks` once the first chunk is done: from
offset `p` on, the loop ends and appends chunks that carry the rest of the file. -/
theorem loop_progress_later (env : Env) (f : File) (S : Nat)
    (halloc : allocs_succeed env) (hreads : reads_progress env)
    (hS : f.content.length = S) (hlim : S < LOFF_T_LIMIT) :
    ∀ (fuel p : Nat) (st : State), p ≤ S → S - p ≤ fuel →
      ∃ st1 cs, read_file_chunks_loop env f (S : Int) fuel (p : Int) false st = some st1 ∧
        st1.g_chunk_list = st.g_chunk_list ++ cs ∧
        (cs.map file_chunk.payload).flatten = f.content.drop p ∧
        (∀ c ∈ cs, 1 ≤ c.chunk_size ∧ c.chunk_size ≤ 64 ∧ c.payload.length = c.chunk_size ∧
          ∃ off, p ≤ off ∧ off + c.chunk_size ≤ S ∧
            c.payload = (f.content.drop off).take c.chunk_size) ∧
        st1.g_requestd_files_list = st.g_requestd_files_list ∧
        st1.g_chunk_list_spinlock = st.g_chunk_list_spinlock ∧
        (reads_exact env → cs.map file_chunk.payload = pieces 64 (f.content.drop p)) ∧
        cs.length ≤ S - p := by
  intro fuel
  induction fuel with
  | zero =>
    intro p st hp hfuel
    have : ¬ ((p : Int) < (S : Int)) := by omega
    have hpS : p = S := by omega
    refine ⟨st, [], loop_exit _ _ _ _ _ _ _ this, by simp, ?_, by simp, rfl, rfl, ?_, by simp⟩
    · simp [hpS, ← hS]
    · intro _
      simp [hpS, ← hS, pieces_nil]
  | succ fuel ih =>
    intro p st hp hfuel
    by_cases hlt : p < S
    · have hlt2 : (p : Int) < (S : Int) := by omega
      obtain ⟨h1, h2⟩ := hreads st.n_vfs_read (min 64 (S - p)) (by omega)
      obtain ⟨r, hr⟩ : ∃ r : Nat, env.vfs_read_ret st.n_vfs_read (min 64 (S - p)) = (r : Int) :=
        ⟨(env.vfs_read_ret st.n_vfs_read (min 64 (S - p))).toNat, by omega⟩
      have hr1 : 1 ≤ r := by omega
      have hr2 : r ≤ min 64 (S - p) := by omega
      obtain ⟨c, hc, hsz, hpay, hlen⟩ := fill_chunk_later_spec env f
        { st with n_kmalloc := st.n_kmalloc + 1 + 1 }
        ((List.range get_default_payload_chunk_size).map (env.heap_garbage (st.n_kmalloc + 1)))
        S p r hS hlim hlt hr hr2
      rw [loop_step env f _ fuel _ _ st hlt2 (halloc _) (halloc _), hc]
      simp only
      obtain ⟨st1, cs, e1, e2, e3, e4, e5, e6, e7, e8⟩ := ih (p + r)
        { st with n_kmalloc := st.n_kmalloc + 1 + 1, n_vfs_read := st.n_vfs_read + 1,
                  g_chunk_list := st.g_chunk_list ++ [c] } (by omega) (by omega)
      refine ⟨st1, c :: cs, e1, ?_, ?_, ?_, ?_, ?_, ?_, ?_⟩
      · rw [e2]; simp
      · simp only [List.map_cons, List.flatten_cons, e3, hpay]
        have : f.content.drop (p + r) = (f.content.drop p).drop r := by
          rw [List.drop_drop, Nat.add_comm]
        rw [this, List.take_append_drop]
      · intro c1 hc1
        rcases List.mem_cons.mp hc1 with h | h
        · subst h
          refine ⟨by omega, by omega, by omega, p, le_refl _, by omega, ?_⟩
          rw [hsz]; exact hpay
        · obtain ⟨a1, a2, a3, off, a4, a5, a6⟩ := e4 c1 h
          exact ⟨a1, a2, a3, off, by omega, a5, a6⟩
      · rw [e5]
      · rw [e6]
      · intro hex
        have hrr : r = min 64 (S - p) := by
          have := hex st.n_vfs_read (min 64 (S - p))
          rw [hr] at this
          exact_mod_cast this
        have hne : f.content.drop p ≠ [] := by
          intro h0
          have := congrArg List.length h0
          simp [List.length_drop] at this
          omega
        rw [pieces_cons 64 (by omega) _ hne, drop_exact_step _ S p hS hp, ← hrr,
          List.map_cons, e7 hex, hpay, hrr, take_exact_step _ S p hS]
      · simp only [List.length_cons]; omega
    · have : ¬ ((p : Int) < (S : Int)) := by omega
      have hpS : p = S := by omega
      refine ⟨st, [], loop_exit _ _ _ _ _ _ _ this, by simp, ?_, by simp, rfl, rfl, ?_, by simp⟩
      · simp [hpS, ← hS]
      · intro _
        simp [hpS, ← hS, pieces_nil]

theorem read_file_chunks_empty (env : Env) (path : List Byte) (f : File) (st : State)
    (fuel : Nat) (hopen : env.filp_open path = some f) (hreg : regular_file f)
    (hS : f.content.length = 0) :
    read_file_chunks env fuel path st = some st := by
  obtain ⟨h1, h2, _⟩ := hreg
  simp only [read_file_chunks, hopen, h1, h2, hS]
  simp [loop_exit]

theorem header_pieces (H l : List Byte) (hH : H.length = 16) (S : Nat) (hS : l.length = S)
    (hpos : 0 < S) :
    pieces 64 (H ++ l) = (H ++ l.take (min 48 S)) :: pieces 64 (l.drop (min 48 S)) := by
  have hne : H ++ l ≠ [] := by
    intro h0
    have := congrArg List.length h0
    simp only [List.length_append, List.length_nil] at this
    omega
  rw [pieces_cons 64 (by omega) _ hne]
  have e1 : (H ++ l).take 64 = H ++ l.take (min 48 S) := by
    rw [List.take_append_eq_append_take, hH, List.take_of_length_le (by omega)]
    congr 1
    by_cases h : 48 ≤ S
    · rw [Nat.min_eq_left h]
    · rw [Nat.min_eq_right (by omega), List.take_of_length_le (by omega),
        List.take_of_length_le (by omega)]
  have e2 : (H ++ l).drop 64 = l.drop (min 48 S) := by
    rw [List.drop_append_eq_append_drop, hH, List.drop_of_length_le (by omega), List.nil_append]
    by_cases h : 48 ≤ S
    · rw [Nat.min_eq_left h]
    · rw [Nat.min_eq_right (by omega), List.drop_of_length_le (by omega),
        List.drop_of_length_le (by omega)]
  rw [e1, e2]

/-- What `read_file_chunks` does with a non-empty regular file when allocations
succeed and every read makes progress: it ends, and appends a first chunk that
starts with the header followed by chunks of file data. -/
theorem read_file_chunks_regular (env : Env) (path : List Byte) (f : File) (st : State)
    (fuel S : Nat) (hopen : env.filp_open path = some f) (hreg : regular_file f)
    (halloc : allocs_succeed env) (hreads : reads_progress env)
    (hS : f.content.length = S) (hpos : 0 < S) (hfuel : S ≤ fuel) :
    ∃ st1 c rest, read_file_chunks env fuel path st = some st1 ∧
      st1.g_chunk_list = st.g_chunk_list ++ c :: rest ∧
      17 ≤ c.chunk_size ∧ c.chunk_size ≤ 64 ∧ c.payload.length = c.chunk_size ∧
      c.payload = file_header S ++ f.content.take (c.chunk_size - 16) ∧
      (rest.map file_chunk.payload).flatten = f.content.drop (c.chunk_size - 16) ∧
      (∀ c1 ∈ rest, 1 ≤ c1.chunk_size ∧ c1.chunk_size ≤ 64 ∧
        c1.payload.length = c1.chunk_size ∧
        ∃ off, c.chunk_size - 16 ≤ off ∧ off + c1.chunk_size ≤ S ∧
          c1.payload = (f.content.drop off).take c1.chunk_size) ∧
      st1.g_requestd_files_list = st.g_requestd_files_list ∧
      st1.g_chunk_list_spinlock = st.g_chunk_list_spinlock ∧
      (reads_exact env →
        (c :: rest).map file_chunk.payload = pieces 64 (file_header S ++ f.content)) ∧
      rest.length + 1 ≤ S := by
  obtain ⟨g1, g2, g3⟩ := hreg
  rw [hS] at g1 g3
  obtain ⟨fuel1, rfl⟩ : ∃ k, fuel = k + 1 := ⟨fuel - 1, by omega⟩
  obtain ⟨h1, h2⟩ := hreads st.n_vfs_read (min 48 S) (by omega)
  obtain ⟨r, hr⟩ : ∃ r : Nat, env.vfs_read_ret st.n_vfs_read (min 48 S) = (r : Int) :=
    ⟨(env.vfs_read_ret st.n_vfs_read (min 48 S)).toNat, by omega⟩
  have hr1 : 1 ≤ r := by omega
  have hr2 : r ≤ min 48 S := by omega
  obtain ⟨c, hc, hsz, hpay, hlen⟩ := fill_chunk_first_spec env f
    { st with n_kmalloc := st.n_kmalloc + 1 + 1 }
    ((List.range get_default_payload_chunk_size).map (env.heap_garbage (st.n_kmalloc + 1)))
    S r hS g3 hr hr2
  have hlt2 : (0 : Int) < (S : Int) := by omega
  simp only [read_file_chunks, hopen, g1, g2, ne_eq, not_true_eq_false, if_false]
  rw [loop_step env f _ fuel1 _ _ st hlt2 (halloc _) (halloc _), hc]
  simp only
  obtain ⟨st1, cs, e1, e2, e3, e4, e5, e6, e7, e8⟩ :=
    loop_progress_later env f S halloc hreads hS g3 fuel1 r
      { st with n_kmalloc := st.n_kmalloc + 1 + 1, n_vfs_read := st.n_vfs_read + 1,
                g_chunk_list := st.g_chunk_list ++ [c] } (by omega) (by omega)
  have hsub : c.chunk_size - 16 = r := by omega
  refine ⟨st1, c, cs, e1, ?_, by omega, by omega, by omega, ?_, ?_, ?_, ?_, ?_, ?_, by omega⟩
  · rw [e2]; simp
  · rw [hsub]; exact hpay
  · rw [hsub]; exact e3
  · rw [hsub]; exact e4
  · rw [e5]
  · rw [e6]
  · intro hex
    have hrr : r = min 48 S := by
      have := hex st.n_vfs_read (min 48 S)
      rw [hr] at this
      exact_mod_cast this
    rw [header_pieces _ _ (file_header_length S) S hS hpos, List.map_cons, e7 hex, hpay, hrr]

theorem ceil_div_spec (a b : Nat) (hb : 0 < b) :
    a ≤ ceil_div a b * b ∧ ceil_div a b * b < a + b := by
  unfold ceil_div
  have h1 := Nat.div_add_mod (a + (b - 1)) b
  have h2 := Nat.mod_lt (a + (b - 1)) hb
  rw [Nat.mul_comm] at h1
  constructor <;> omega

theorem pieces_length (C : Nat) (l : List Byte) : (pieces C l).length = ceil_div l.length C := by
  simp [pieces, ceil_div]

/-- C1: for a file of `S` bytes that opens and seeks back to offset 0, when every
allocation succeeds and every read returns exactly the number of bytes requested,
`read_file_chunks` returns (with any fuel of at least `S`) and appends exactly
`ceil((S + 16) / 64)` chunks to the chunk queue when `S > 0`, and none when `S = 0`. -/
theorem C1_chunk_count (env : Env) (path : List Byte) (f : File) (st : State) (fuel : Nat)
    (hopen : env.filp_open path = some f) (hreg : regular_file f)
    (halloc : allocs_succeed env) (hexact : reads_exact env)
    (hfuel : f.content.length ≤ fuel) :
    ∃ st1 cs, read_file_chunks env fuel path st = some st1 ∧
      st1.g_chunk_list = st.g_chunk_list ++ cs ∧
      cs.length = if f.content.length = 0 then 0
        else ceil_div (f.content.length + sizeof_new_file_signature)
          get_default_payload_chunk_size := by
  by_cases h0 : f.content.length = 0
  · exact ⟨st, [], read_file_chunks_empty env path f st fuel hopen hreg h0, by simp, by simp [h0]⟩
  · obtain ⟨st1, c, rest, e1, e2, -, -, -, -, -, -, -, -, e3, -⟩ :=
      read_file_chunks_regular env path f st fuel f.content.length hopen hreg halloc
        (reads_exact_progress env hexact) rfl (by omega) hfuel
    refine ⟨st1, c :: rest, e1, e2, ?_⟩
    have := congrArg List.length (e3 hexact)
    rw [List.length_map, pieces_length, List.length_append, file_header_length] at this
    rw [this, if_neg h0]
    simp only [sizeof_new_file_signature, get_default_payload_chunk_size,
      DEFAULT_PAYLOAD_CHUNKS_SIZE, Nat.add_comm]

/-- Witness of C1: a file of 200 bytes gives 4 chunks. -/
theorem C1_chunk_count_witness :
    ∃ st1 cs, read_file_chunks (demo_env (demo_file 200)) 200 [97] demo_state = some st1 ∧
      st1.g_chunk_list = demo_state.g_chunk_list ++ cs ∧ cs.length = 4 := by
  obtain ⟨st1, cs, h1, h2, h3⟩ :=
    C1_chunk_count (demo_env (demo_file 200)) [97] (demo_file 200) demo_state 200 rfl
      (by simp [regular_file, demo_file, LOFF_T_LIMIT]) (fun _ => rfl) (fun _ _ => rfl)
      (by simp [demo_file])
  refine ⟨st1, cs, h1, h2, ?_⟩
  rw [h3]
  simp [demo_file, ceil_div, sizeof_new_file_signature, get_default_payload_chunk_size,
    DEFAULT_PAYLOAD_CHUNKS_SIZE]

/-- C2 (round trip): for every file content, when every allocation succeeds and
every read returns between 1 and the requested number of bytes,
`read_file_chunks` returns, and concatenating the payloads of the chunks it
appended, in queue order, after removing the first 16 bytes of the first chunk,
gives the file's bytes exactly and in order. -/
theorem C2_round_trip (env : Env) (path : List Byte) (f : File) (st : State) (fuel : Nat)
    (hopen : env.filp_open path = some f) (hreg : regular_file f)
    (halloc : allocs_succeed env) (hreads : reads_progress env)
    (hfuel : f.content.length ≤ fuel) :
    ∃ st1 cs, read_file_chunks env fuel path st = some st1 ∧
      st1.g_chunk_list = st.g_chunk_list ++ cs ∧
      reassemble cs = f.content := by
  by_cases h0 : f.content.length = 0
  · refine ⟨st, [], read_file_chunks_empty env path f st fuel hopen hreg h0, by simp, ?_⟩
    simp [reassemble, List.length_eq_zero.mp h0]
  · obtain ⟨st1, c, rest, e1, e2, -, -, -, e3, e4, -⟩ :=
      read_file_chunks_regular env path f st fuel f.content.length hopen hreg halloc
        hreads rfl (by omega) hfuel
    refine ⟨st1, c :: rest, e1, e2, ?_⟩
    simp only [reassemble, e3, e4, sizeof_new_file_signature]
    have : (file_header f.content.length ++ f.content.take (c.chunk_size - 16)).drop 16 =
        f.content.take (c.chunk_size - 16) := by
      rw [List.drop_append_eq_append_drop, file_header_length,
        List.drop_of_length_le (by rw [file_header_length])]
      simp
    rw [this, List.take_append_drop]

/-- Witness of C2: a file of 100 bytes read 7 bytes at a time. -/
theorem C2_round_trip_witness :
    ∃ st1 cs, read_file_chunks (demo_env_short (demo_file 100) 7) 100 [97] demo_state =
        some st1 ∧
      st1.g_chunk_list = demo_state.g_chunk_list ++ cs ∧
      reassemble cs = (demo_file 100).content :=
  C2_round_trip (demo_env_short (demo_file 100) 7) [97] (demo_file 100) demo_state 100 rfl
    (by simp [regular_file, demo_file, LOFF_T_LIMIT]) (fun _ => rfl)
    (fun _ count h => by
      show (1 : Int) ≤ ((min 7 count : Nat) : Int) ∧ ((min 7 count : Nat) : Int) ≤ (count : Int)
      omega)
    (by simp [demo_file])

theorem file_header_take (S : Nat) : (file_header S).take 8 = DEFAULT_NEW_FILE_SIGNATURE := by
  simp [file_header, DEFAULT_NEW_FILE_SIGNATURE]

theorem file_header_drop (S : Nat) : (file_header S).drop 8 = size_t_bytes S := by
  simp [file_header, DEFAULT_NEW_FILE_SIGNATURE]

/-- C3, as the code has it: the first chunk of a non-empty file begins with the
marker, and it is the only chunk into which `read_file_chunks` writes the marker:
every later chunk is a run of consecutive bytes of the file, so a later chunk
begins with the 8 marker bytes only if the file's data holds them at the offset
where that chunk starts. -/
theorem C3_marker_only_from_data (env : Env) (path : List Byte) (f : File) (st : State)
    (fuel : Nat) (hopen : env.filp_open path = some f) (hreg : regular_file f)
    (halloc : allocs_succeed env) (hreads : reads_progress env)
    (hpos : 0 < f.content.length) (hfuel : f.content.length ≤ fuel) :
    ∃ st1 c rest, read_file_chunks env fuel path st = some st1 ∧
      st1.g_chunk_list = st.g_chunk_list ++ c :: rest ∧
      c.payload.take 8 = DEFAULT_NEW_FILE_SIGNATURE ∧
      ∀ c1 ∈ rest, ∃ off, off + c1.chunk_size ≤ f.content.length ∧
        c1.payload = (f.content.drop off).take c1.chunk_size ∧
        (c1.payload.take 8 = DEFAULT_NEW_FILE_SIGNATURE →
          (f.content.drop off).take 8 = DEFAULT_NEW_FILE_SIGNATURE) := by
  obtain ⟨st1, c, rest, e1, e2, -, -, -, e3, -, e4, -⟩ :=
    read_file_chunks_regular env path f st fuel f.content.length hopen hreg halloc
      hreads rfl hpos hfuel
  refine ⟨st1, c, rest, e1, e2, ?_, ?_⟩
  · rw [e3, List.take_append_of_le_length (by rw [file_header_length]; omega)]
    exact file_header_take _
  · intro c1 hc1
    obtain ⟨a1, a2, a3, off, a4, a5, a6⟩ := e4 c1 hc1
    refine ⟨off, a5, a6, ?_⟩
    intro hm
    have h8 : 8 ≤ c1.chunk_size := by
      have := congrArg List.length hm
      rw [List.length_take, a3] at this
      simp only [DEFAULT_NEW_FILE_SIGNATURE, List.length_cons, List.length_nil] at this
      omega
    rw [a6, List.take_take, Nat.min_eq_left h8] at hm
    exact hm

/-- Witness of C3: the file of 56 bytes whose second chunk is the marker. -/
theorem C3_marker_only_from_data_witness :
    ∃ st1 c rest, read_file_chunks (demo_env marker_file) 56 [97] demo_state = some st1 ∧
      st1.g_chunk_list = demo_state.g_chunk_list ++ c :: rest ∧
      c.payload.take 8 = DEFAULT_NEW_FILE_SIGNATURE ∧
      ∀ c1 ∈ rest, ∃ off, off + c1.chunk_size ≤ marker_file.content.length ∧
        c1.payload = (marker_file.content.drop off).take c1.chunk_size ∧
        (c1.payload.take 8 = DEFAULT_NEW_FILE_SIGNATURE →
          (marker_file.content.drop off).take 8 = DEFAULT_NEW_FILE_SIGNATURE) :=
  C3_marker_only_from_data (demo_env marker_file) [97] marker_file demo_state 56 rfl
    (by simp [regular_file, marker_file, LOFF_T_LIMIT, DEFAULT_NEW_FILE_SIGNATURE])
    (fun _ => rfl) (reads_exact_progress _ (fun _ _ => rfl))
    (by simp [marker_file]) (by simp [marker_file, DEFAULT_NEW_FILE_SIGNATURE])

/-- Counterexample to C3 as stated: the file `marker_file` (48 zero bytes followed by
the 8 marker bytes) is sent as two chunks, and the second chunk begins with the
marker just as the first one does. -/
theorem C3_counterexample :
    (read_file_chunks (demo_env marker_file) 56 [97] demo_state).map
        (fun s => s.g_chunk_list.map (fun c => c.payload.take 8)) =
      some [DEFAULT_NEW_FILE_SIGNATURE, DEFAULT_NEW_FILE_SIGNATURE] := by
  decide

/-- C4: for a non-empty file of `S` bytes (allocations succeeding, every read
returning between 1 and the requested number of bytes), the first chunk that
`read_file_chunks` enqueues is `[8-byte marker][8-byte file size][file data]`:
payload bytes 0..7 are `DEFAULT_NEW_FILE_SIGNATURE`, bytes 8..15 are the
little-endian bytes of `S`, the file's data starts at payload offset 16, and the
header is written once: the chunks after the first carry the rest of the file's
data and nothing else. -/
theorem C4_first_chunk_layout (env : Env) (path : List Byte) (f : File) (st : State)
    (fuel : Nat) (hopen : env.filp_open path = some f) (hreg : regular_file f)
    (halloc : allocs_succeed env) (hreads : reads_progress env)
    (hpos : 0 < f.content.length) (hfuel : f.content.length ≤ fuel) :
    ∃ st1 c rest, read_file_chunks env fuel path st = some st1 ∧
      st1.g_chunk_list = st.g_chunk_list ++ c :: rest ∧
      sizeof_new_file_signature < c.chunk_size ∧
      c.chunk_size ≤ get_default_payload_chunk_size ∧
      c.payload.length = c.chunk_size ∧
      c.payload.take 8 = DEFAULT_NEW_FILE_SIGNATURE ∧
      (c.payload.drop 8).take 8 = size_t_bytes f.content.length ∧
      size_t_of_bytes ((c.payload.drop 8).take 8) = f.content.length ∧
      c.payload.drop sizeof_new_file_signature =
        f.content.take (c.chunk_size - sizeof_new_file_signature) ∧
      (rest.map file_chunk.payload).flatten =
        f.content.drop (c.chunk_size - sizeof_new_file_signature) := by
  obtain ⟨st1, c, rest, e1, e2, b1, b2, b3, e3, e4, -⟩ :=
    read_file_chunks_regular env path f st fuel f.content.length hopen hreg halloc
      hreads rfl hpos hfuel
  have hH := file_header_length f.content.length
  have hb : (c.payload.drop 8).take 8 = size_t_bytes f.content.length := by
    rw [e3, List.drop_append_of_le_length (by omega),
      List.take_append_of_le_length (by rw [List.length_drop]; omega), file_header_drop]
    exact List.take_of_length_le (by rw [size_t_bytes_length])
  refine ⟨st1, c, rest, e1, e2, ?_, ?_, b3, ?_, hb, ?_, ?_, e4⟩
  · simp only [sizeof_new_file_signature]; omega
  · simp only [get_default_payload_chunk_size, DEFAULT_PAYLOAD_CHUNKS_SIZE]; omega
  · rw [e3, List.take_append_of_le_length (by omega)]
    exact file_header_take _
  · rw [hb]
    apply size_t_of_bytes_bytes
    have := hreg.2.2
    simp only [LOFF_T_LIMIT, SIZE_T_MOD] at *
    omega
  · simp only [sizeof_new_file_signature]
    rw [e3, List.drop_append_eq_append_drop, hH, List.drop_of_length_le (by omega)]
    simp

/-- Witness of C4: a file of 200 bytes. -/
theorem C4_first_chunk_layout_witness :
    ∃ st1 c rest, read_file_chunks (demo_env (demo_file 200)) 200 [97] demo_state = some st1 ∧
      st1.g_chunk_list = demo_state.g_chunk_list ++ c :: rest ∧
      sizeof_new_file_signature < c.chunk_size ∧
      c.chunk_size ≤ get_default_payload_chunk_size ∧
      c.payload.length = c.chunk_size ∧
      c.payload.take 8 = DEFAULT_NEW_FILE_SIGNATURE ∧
      (c.payload.drop 8).take 8 = size_t_bytes (demo_file 200).content.length ∧
      size_t_of_bytes ((c.payload.drop 8).take 8) = (demo_file 200).content.length ∧
      c.payload.drop sizeof_new_file_signature =
        (demo_file 200).content.take (c.chunk_size - sizeof_new_file_signature) ∧
      (rest.map file_chunk.payload).flatten =
        (demo_file 200).content.drop (c.chunk_size - sizeof_new_file_signature) :=
  C4_first_chunk_layout (demo_env (demo_file 200)) [97] (demo_file 200) demo_state 200 rfl
    (by simp [regular_file, demo_file, LOFF_T_LIMIT]) (fun _ => rfl)
    (reads_exact_progress _ (fun _ _ => rfl)) (by simp [demo_file]) (by simp [demo_file])

/-- C5, evaluated at the failing input: a file of 100 bytes whose second read
fails with `-EIO`. The second chunk is enqueued with `chunk_size = 2 ^ 64 - 5`,
which is larger than `get_default_payload_chunk_size`. -/
theorem C5_error_read_chunk_size :
    (read_file_chunks (demo_env_error (demo_file 100) 1 EIO) 100 [97] demo_state).map
        (fun s => s.g_chunk_list.map file_chunk.chunk_size) =
      some [64, SIZE_T_MOD - 5, 52] ∧
    get_default_payload_chunk_size < SIZE_T_MOD - 5 := by
  decide

/-- C6, as the code has it: on an empty chunk queue with the lock free,
`generate_payload` returns 0, leaves the destination buffer, the length cell and
the state (the queue stays empty, the lock free) as they were; a successful pop
returns 0 as well, and differs for the caller by setting the length cell to the
size of the chunk. -/
theorem C6_empty_queue (buf : List Byte) (length : Nat) (st : State)
    (hlock : st.g_chunk_list_spinlock = false) (hq : st.g_chunk_list = []) :
    (generate_payload (some buf) length st).ret = 0 ∧
    (generate_payload (some buf) length st).buffer = some buf ∧
    (generate_payload (some buf) length st).length = length ∧
    (generate_payload (some buf) length st).st = st ∧
    ∀ c rest, (generate_payload (some buf) length { st with g_chunk_list := c :: rest }).ret = 0 ∧
      (generate_payload (some buf) length { st with g_chunk_list := c :: rest }).length =
        c.chunk_size := by
  simp [generate_payload, hlock, hq]

/-- Witness of C6: the state after loading, a buffer of 64 bytes. -/
theorem C6_empty_queue_witness :
    (generate_payload (some demo_buffer) 7 demo_state).ret = 0 ∧
    (generate_payload (some demo_buffer) 7 demo_state).buffer =
      some demo_buffer ∧
    (generate_payload (some demo_buffer) 7 demo_state).length = 7 ∧
    (generate_payload (some demo_buffer) 7 demo_state).st = demo_state ∧
    ∀ c rest, (generate_payload (some demo_buffer) 7
        { demo_state with g_chunk_list := c :: rest }).ret = 0 ∧
      (generate_payload (some demo_buffer) 7
        { demo_state with g_chunk_list := c :: rest }).length = c.chunk_size :=
  C6_empty_queue demo_buffer 7 demo_state rfl rfl

/-- Counterexample to C6 as stated: the return value on an empty queue is the
return value of a successful pop. Moreover, with one chunk of 4 bytes queued, a
first call pops it, and a second call, made on the now empty queue with the same
buffer and length cell, gives the caller the same return value, the same buffer
contents and the same length as the successful first call. -/
theorem C6_counterexample :
    (generate_payload (some demo_buffer) 0 demo_state).ret =
      (generate_payload (some demo_buffer) 0 one_chunk_state).ret ∧
    first_call.st.g_chunk_list = [] ∧
    (generate_payload first_call.buffer first_call.length first_call.st).ret = first_call.ret ∧
    (generate_payload first_call.buffer first_call.length first_call.st).buffer =
      first_call.buffer ∧
    (generate_payload first_call.buffer first_call.length first_call.st).length =
      first_call.length := by
  decide

theorem drain_spec (q : List file_chunk) (hwf : ∀ c ∈ q, c.chunk_size ≤ c.data.length) :
    ∀ (k : Nat) (buf : List Byte) (st : State), st.g_chunk_list_spinlock = false →
      st.g_chunk_list = q → k ≤ q.length →
      (drain k buf st).1 = (q.take k).map file_chunk.payload ∧
      (drain k buf st).2.g_chunk_list = q.drop k ∧
      (drain k buf st).2.g_chunk_list_spinlock = false := by
  induction q with
  | nil =>
    intro k buf st hl hq hk
    have : k = 0 := by simpa using hk
    subst this
    simp [drain, hq, hl]
  | cons c rest ih =>
    intro k buf st hl hq hk
    cases k with
    | zero => simp [drain, hq, hl]
    | succ k =>
      have hc := hwf c (List.mem_cons_self _ _)
      have hlen : c.payload.length = c.chunk_size := by
        simp [file_chunk.payload, List.length_take, hc]
      obtain ⟨i1, i2, i3⟩ := ih (fun c1 h1 => hwf c1 (List.mem_cons_of_mem _ h1)) k
        (memcpy buf 0 c.data c.chunk_size) { st with g_chunk_list := rest } hl rfl
        (by simpa using hk)
      simp only [hl] at i1 i2 i3
      simp only [drain, generate_payload, hl, hq, Bool.false_eq_true, if_false, Option.getD_some,
        List.take_succ_cons, List.map_cons, List.drop_succ_cons]
      refine ⟨?_, i2, i3⟩
      rw [i1]
      congr 1
      simp only [memcpy, List.take_zero, List.nil_append, Nat.zero_add]
      rw [List.take_append_of_le_length (by rw [List.length_take]; omega)]
      rw [List.take_take, Nat.min_self]
      rfl

/-- C7: with the lock free and the queue `c :: rest`, `generate_payload` returns 0,
copies the `chunk_size` payload bytes of `c` to the start of the buffer (the bytes
of the buffer past that length stay, and so does its length), reports `chunk_size`
as the length and leaves the queue equal to `rest`, the lock free. Hence `k`
consecutive calls hand over the payloads of the first `k` queued chunks, in queue
order and once each, and leave the other chunks queued. The chunks are well formed
(`chunk_size` bytes are in `data`) and the buffer has room for them. -/
theorem C7_pop_front (buf : List Byte) (length : Nat) (st : State) (c : file_chunk)
    (rest : List file_chunk) (hlock : st.g_chunk_list_spinlock = false)
    (hq : st.g_chunk_list = c :: rest)
    (hwf : ∀ c1 ∈ c :: rest, c1.chunk_size ≤ c1.data.length)
    (hcap : c.chunk_size ≤ buf.length) :
    (generate_payload (some buf) length st).ret = 0 ∧
    (generate_payload (some buf) length st).buffer = some (c.payload ++ buf.drop c.chunk_size) ∧
    c.payload.length = c.chunk_size ∧
    (c.payload ++ buf.drop c.chunk_size).length = buf.length ∧
    (generate_payload (some buf) length st).length = c.chunk_size ∧
    (generate_payload (some buf) length st).st.g_chunk_list = rest ∧
    (generate_payload (some buf) length st).st.g_chunk_list_spinlock = false ∧
    ∀ k, k ≤ (c :: rest).length →
      (drain k buf st).1 = ((c :: rest).take k).map file_chunk.payload ∧
      (drain k buf st).2.g_chunk_list = (c :: rest).drop k := by
  have hc := hwf c (List.mem_cons_self _ _)
  have hlen : c.payload.length = c.chunk_size := by
    simp [file_chunk.payload, List.length_take, hc]
  refine ⟨?_, ?_, hlen, ?_, ?_, ?_, ?_, ?_⟩
  · simp [generate_payload, hlock, hq]
  · simp [generate_payload, hlock, hq, memcpy, file_chunk.payload]
  · rw [List.length_append, hlen, List.length_drop]; omega
  · simp [generate_payload, hlock, hq]
  · simp [generate_payload, hlock, hq]
  · simp [generate_payload, hlock, hq]
  · intro k hk
    obtain ⟨h1, h2, -⟩ := drain_spec (c :: rest) hwf k buf st hlock hq hk
    exact ⟨h1, h2⟩

/-- Witness of C7: a queue of two chunks and a buffer of 64 bytes. -/
theorem C7_pop_front_witness :
    (generate_payload (some demo_buffer) 0 two_chunk_state).ret = 0 ∧
    (generate_payload (some demo_buffer) 0 two_chunk_state).buffer =
      some ([1, 2, 3, 4] ++ List.replicate 60 0) ∧
    (generate_payload (some demo_buffer) 0 two_chunk_state).length = 4 ∧
    (generate_payload (some demo_buffer) 0 two_chunk_state).st.g_chunk_list = [⟨[5, 6, 7], 2⟩] ∧
    (drain 2 demo_buffer two_chunk_state).1 = [[1, 2, 3, 4], [5, 6]] ∧
    (drain 2 demo_buffer two_chunk_state).2.g_chunk_list = [] := by
  obtain ⟨h1, h2, -, -, h3, h4, -, h5⟩ :=
    C7_pop_front demo_buffer 0 two_chunk_state ⟨[1, 2, 3, 4], 4⟩ [⟨[5, 6, 7], 2⟩] rfl rfl
      (by decide) (by decide)
  exact ⟨h1, h2, h3, h4, (h5 2 (by decide)).1, (h5 2 (by decide)).2⟩

theorem take_strlen_succ (p : List Byte) : (p ++ [0]).take (strlen p + 1) = c_str p ++ [0] := by
  induction p with
  | nil => simp [strlen, c_str]
  | cons b p ih =>
    by_cases hb : b = 0
    · simp [strlen, c_str, hb]
    · simp only [strlen, c_str] at ih ⊢
      simp only [List.takeWhile_cons, hb, ne_eq, not_false_eq_true, decide_True, if_true,
        List.length_cons, List.cons_append, List.take_succ_cons, ih]

theorem c_str_c_str_append (p tail : List Byte) : c_str (c_str p ++ 0 :: tail) = c_str p := by
  induction p with
  | nil => simp [c_str]
  | cons b p ih =>
    by_cases hb : b = 0
    · simp [c_str, hb]
    · simp only [c_str] at ih ⊢
      simp only [List.takeWhile_cons, hb, ne_eq, not_false_eq_true, decide_True, if_true,
        List.cons_append, ih]

theorem path_copy (p buf : List Byte) (hbuf : buf.length = strlen p) :
    c_str ((memcpy buf 0 (p ++ [0]) (strlen p + 1)).take (strlen p) ++ [0] ++
      (memcpy buf 0 (p ++ [0]) (strlen p + 1)).drop (strlen p + 1)) = c_str p := by
  have e : memcpy buf 0 (p ++ [0]) (strlen p + 1) = c_str p ++ [0] := by
    simp only [memcpy, List.take_zero, List.nil_append, Nat.zero_add, take_strlen_succ]
    rw [List.drop_of_length_le (by omega), List.append_nil]
  rw [e]
  have e2 : (c_str p ++ [0]).take (strlen p) = c_str p := by
    rw [List.take_append_of_le_length (by simp [strlen])]
    exact List.take_of_length_le (by simp [strlen])
  rw [e2, List.append_assoc]
  exact c_str_c_str_append p _

theorem process_step (env : Env) (fuel : Nat) (st : State) (next : file_metadata)
    (rest : List file_metadata) (hq : st.g_requestd_files_list = next :: rest)
    (hok : env.kmalloc_ok st.n_kmalloc = true) :
    process_next_pending_file env fuel st =
      read_file_chunks env fuel (c_str next.file_path)
        { st with n_kmalloc := st.n_kmalloc + 1, g_requestd_files_list := rest } := by
  unfold process_next_pending_file
  split
  · rename_i h; rw [hq] at h; cases h
  · rename_i n r h
    rw [hq] at h
    cases h
    simp only
    rw [kmalloc_of_ok env st _ hok]
    simp only
    rw [path_copy _ _ (by simp)]

theorem process_alloc_failure (env : Env) (fuel : Nat) (st : State) (next : file_metadata)
    (rest : List file_metadata) (hq : st.g_requestd_files_list = next :: rest)
    (hfail : env.kmalloc_ok st.n_kmalloc = false) :
    process_next_pending_file env fuel st = some { st with n_kmalloc := st.n_kmalloc + 1 } := by
  unfold process_next_pending_file
  split
  · rename_i h; rw [hq] at h; cases h
  · simp only
    rw [kmalloc_of_fail env st _ hfail]

theorem read_file_chunks_stream (env : Env) (path : List Byte) (f : File) (st : State)
    (fuel : Nat) (hopen : env.filp_open path = some f) (hreg : regular_file f)
    (halloc : allocs_succeed env) (hreads : reads_progress env)
    (hfuel : f.content.length ≤ fuel) :
    ∃ st1 cs, read_file_chunks env fuel path st = some st1 ∧
      st1.g_chunk_list = st.g_chunk_list ++ cs ∧
      (cs.map file_chunk.payload).flatten = file_stream f ∧
      st1.g_requestd_files_list = st.g_requestd_files_list ∧
      st1.g_chunk_list_spinlock = st.g_chunk_list_spinlock := by
  by_cases h0 : f.content.length = 0
  · refine ⟨st, [], read_file_chunks_empty env path f st fuel hopen hreg h0, by simp, ?_, rfl, rfl⟩
    simp [file_stream, h0]
  · obtain ⟨st1, c, rest, e1, e2, -, -, -, e3, e4, -, e5, e6, -⟩ :=
      read_file_chunks_regular env path f st fuel f.content.length hopen hreg halloc
        hreads rfl (by omega) hfuel
    refine ⟨st1, c :: rest, e1, e2, ?_, e5, e6⟩
    simp only [List.map_cons, List.flatten_cons, e3, e4, file_stream, if_neg h0]
    rw [List.append_assoc, List.take_append_drop]

/-- C8: with requests for the files A then B at the front of the request queue (all
allocations and opens succeeding, every read returning between 1 and the
requested number of bytes), two successive calls of `process_next_pending_file`
return, remove A then B from the request queue, and leave the chunk queue equal
to its old contents followed by the chunks of A followed by the chunks of B: the
chunks of A carry the whole byte stream of A, those of B the whole stream of B. -/
theorem C8_two_requests (env : Env) (fuel : Nat) (st : State) (A B : file_metadata)
    (rest : List file_metadata) (fA fB : File)
    (hq : st.g_requestd_files_list = A :: B :: rest)
    (hA : env.filp_open (c_str A.file_path) = some fA)
    (hB : env.filp_open (c_str B.file_path) = some fB)
    (hregA : regular_file fA) (hregB : regular_file fB)
    (halloc : allocs_succeed env) (hreads : reads_progress env)
    (hfuelA : fA.content.length ≤ fuel) (hfuelB : fB.content.length ≤ fuel) :
    ∃ st1 st2 csA csB,
      process_next_pending_file env fuel st = some st1 ∧
      st1.g_requestd_files_list = B :: rest ∧
      st1.g_chunk_list = st.g_chunk_list ++ csA ∧
      process_next_pending_file env fuel st1 = some st2 ∧
      st2.g_requestd_files_list = rest ∧
      st2.g_chunk_list = st.g_chunk_list ++ csA ++ csB ∧
      (csA.map file_chunk.payload).flatten = file_stream fA ∧
      (csB.map file_chunk.payload).flatten = file_stream fB := by
  obtain ⟨st1, csA, a1, a2, a3, a4, a5⟩ :=
    read_file_chunks_stream env (c_str A.file_path) fA
      { st with n_kmalloc := st.n_kmalloc + 1, g_requestd_files_list := B :: rest }
      fuel hA hregA halloc hreads hfuelA
  obtain ⟨st2, csB, b1, b2, b3, b4, b5⟩ :=
    read_file_chunks_stream env (c_str B.file_path) fB
      { st1 with n_kmalloc := st1.n_kmalloc + 1, g_requestd_files_list := rest }
      fuel hB hregB halloc hreads hfuelB
  refine ⟨st1, st2, csA, csB, ?_, a4, a2, ?_, b4, ?_, a3, b3⟩
  · rw [process_step env fuel st A (B :: rest) hq (halloc _)]
    exact a1
  · rw [process_step env fuel st1 B rest a4 (halloc _)]
    exact b1
  · rw [b2]
    simp only
    rw [a2]

/-- Witness of C8: requests for a file of 100 bytes and a file of 70 bytes. -/
theorem C8_two_requests_witness :
    ∃ st1 st2 csA csB,
      process_next_pending_file two_file_env 100 two_request_state = some st1 ∧
      st1.g_requestd_files_list = [⟨[98]⟩] ∧
      st1.g_chunk_list = two_request_state.g_chunk_list ++ csA ∧
      process_next_pending_file two_file_env 100 st1 = some st2 ∧
      st2.g_requestd_files_list = [] ∧
      st2.g_chunk_list = two_request_state.g_chunk_list ++ csA ++ csB ∧
      (csA.map file_chunk.payload).flatten = file_stream (demo_file 100) ∧
      (csB.map file_chunk.payload).flatten = file_stream (demo_file 70) :=
  C8_two_requests two_file_env 100 two_request_state ⟨[97]⟩ ⟨[98]⟩ [] (demo_file 100)
    (demo_file 70) rfl (by rfl) (by rfl)
    (by simp [regular_file, demo_file, LOFF_T_LIMIT])
    (by simp [regular_file, demo_file, LOFF_T_LIMIT])
    (fun _ => rfl) (reads_exact_progress _ (fun _ _ => rfl))
    (by simp [demo_file]) (by simp [demo_file])

/-- C9: when the allocation of the local path copy fails, `process_next_pending_file`
returns with the request queue, the chunk queue and the lock as they were, so the
request at the front is still the first one for the next call. -/
theorem C9_path_alloc_failure (env : Env) (fuel : Nat) (st : State)
    (hq : st.g_requestd_files_list ≠ [])
    (hfail : env.kmalloc_ok st.n_kmalloc = false) :
    ∃ st1, process_next_pending_file env fuel st = some st1 ∧
      st1.g_requestd_files_list = st.g_requestd_files_list ∧
      st1.g_requestd_files_list.head? = st.g_requestd_files_list.head? ∧
      st1.g_chunk_list = st.g_chunk_list ∧
      st1.g_chunk_list_spinlock = st.g_chunk_list_spinlock := by
  obtain ⟨next, rest, hnr⟩ : ∃ next rest, st.g_requestd_files_list = next :: rest := by
    cases h : st.g_requestd_files_list with
    | nil => exact absurd h hq
    | cons a l => exact ⟨a, l, rfl⟩
  exact ⟨_, process_alloc_failure env fuel st next rest hnr hfail, rfl, rfl, rfl, rfl⟩

/-- Witness of C9: one pending request and a kernel whose first allocation fails. -/
theorem C9_path_alloc_failure_witness :
    ∃ st1, process_next_pending_file (demo_env_alloc_failure (demo_file 100) 0) 100
        two_request_state = some st1 ∧
      st1.g_requestd_files_list = two_request_state.g_requestd_files_list ∧
      st1.g_requestd_files_list.head? = two_request_state.g_requestd_files_list.head? ∧
      st1.g_chunk_list = two_request_state.g_chunk_list ∧
      st1.g_chunk_list_spinlock = two_request_state.g_chunk_list_spinlock :=
  C9_path_alloc_failure (demo_env_alloc_failure (demo_file 100) 0) 100 two_request_state
    (by decide) (by decide)

theorem vfs_read_state (env : Env) (f : File) (st : State) (buf : List Byte) (off count : Nat)
    (pos : Int) :
    (vfs_read env f st buf off count pos).2.2.2 = { st with n_vfs_read := st.n_vfs_read + 1 } := by
  simp only [vfs_read]
  split <;> rfl

theorem fill_chunk_appends (env : Env) (f : File) (file_size pos : Int) (first : Bool)
    (data : List Byte) (st : State) :
    (fill_chunk env f file_size pos first data st).2.2.g_chunk_list =
        st.g_chunk_list ++ [(fill_chunk env f file_size pos first data st).1] ∧
    (fill_chunk env f file_size pos first data st).2.2.g_requestd_files_list =
        st.g_requestd_files_list ∧
    (fill_chunk env f file_size pos first data st).2.2.g_chunk_list_spinlock =
        st.g_chunk_list_spinlock ∧
    (fill_chunk env f file_size pos first data st).2.2.n_kmalloc = st.n_kmalloc := by
  simp only [fill_chunk, vfs_read_state, and_self]

theorem loop_appends (env : Env) (f : File) (file_size : Int) :
    ∀ (fuel : Nat) (pos : Int) (first : Bool) (st st1 : State),
      read_file_chunks_loop env f file_size fuel pos first st = some st1 →
      (∃ cs, st1.g_chunk_list = st.g_chunk_list ++ cs) ∧
      st1.g_requestd_files_list = st.g_requestd_files_list ∧
      st1.g_chunk_list_spinlock = st.g_chunk_list_spinlock := by
  intro fuel
  induction fuel with
  | zero =>
    intro pos first st st1 h
    by_cases hc : pos < file_size
    · simp [read_file_chunks_loop, hc] at h
    · rw [loop_exit _ _ _ _ _ _ _ hc] at h
      cases h
      exact ⟨⟨[], by simp⟩, rfl, rfl⟩
  | succ fuel ih =>
    intro pos first st st1 h
    by_cases hc : pos < file_size
    · by_cases h1 : env.kmalloc_ok st.n_kmalloc = true
      · by_cases h2 : env.kmalloc_ok (st.n_kmalloc + 1) = true
        · rw [loop_step env f _ fuel _ _ st hc h1 h2] at h
          obtain ⟨⟨cs, i1⟩, i2, i3⟩ := ih _ _ _ _ h
          obtain ⟨a1, a2, a3, -⟩ := fill_chunk_appends env f file_size pos first
            ((List.range get_default_payload_chunk_size).map (env.heap_garbage (st.n_kmalloc + 1)))
            { st with n_kmalloc := st.n_kmalloc + 1 + 1 }
          refine ⟨⟨(fill_chunk env f file_size pos first
            ((List.range get_default_payload_chunk_size).map (env.heap_garbage (st.n_kmalloc + 1)))
            { st with n_kmalloc := st.n_kmalloc + 1 + 1 }).1 :: cs, ?_⟩, ?_, ?_⟩
          · rw [i1, a1]; simp
          · rw [i2, a2]
          · rw [i3, a3]
        · rw [read_file_chunks_loop, if_pos hc, kmalloc_of_ok env st _ h1] at h
          simp only at h
          rw [kmalloc_of_fail env _ _ (by simpa using h2)] at h
          cases h
          exact ⟨⟨[], by simp⟩, rfl, rfl⟩
      · rw [read_file_chunks_loop, if_pos hc, kmalloc_of_fail env st _ (by simpa using h1)] at h
        cases h
        exact ⟨⟨[], by simp⟩, rfl, rfl⟩
    · rw [loop_exit _ _ _ _ _ _ _ hc] at h
      cases h
      exact ⟨⟨[], by simp⟩, rfl, rfl⟩

theorem fill_chunk_no_alloc_failure (env : Env) (f : File) (file_size pos : Int) (first : Bool)
    (n : Nat) (st : State) :
    fill_chunk (no_alloc_failure env) f file_size pos first
        ((List.range get_default_payload_chunk_size).map
          ((no_alloc_failure env).heap_garbage n)) st =
      fill_chunk env f file_size pos first
        ((List.range get_default_payload_chunk_size).map (env.heap_garbage n)) st := rfl

/-- The loop of `read_file_chunks` when the first failing allocation is one of the
two allocations of pass `j + 1`: the loop returns, and what it appended is what
the first `j` passes of the run without allocation failure append. -/
theorem loop_alloc_failure (env : Env) (f : File) (file_size : Int) :
    ∀ (j fuel : Nat) (pos : Int) (first : Bool) (st : State), j + 1 ≤ fuel →
      (∀ i, i < 2 * j → env.kmalloc_ok (st.n_kmalloc + i) = true) →
      (env.kmalloc_ok (st.n_kmalloc + 2 * j) = false ∨
        env.kmalloc_ok (st.n_kmalloc + 2 * j + 1) = false) →
      ∃ st1, read_file_chunks_loop env f file_size fuel pos first st = some st1 ∧
        (∃ cs, st1.g_chunk_list = st.g_chunk_list ++ cs ∧ cs.length ≤ j) ∧
        st1.g_requestd_files_list = st.g_requestd_files_list ∧
        st1.g_chunk_list_spinlock = st.g_chunk_list_spinlock ∧
        ∀ fuel2 st2,
          read_file_chunks_loop (no_alloc_failure env) f file_size fuel2 pos first st = some st2 →
          st1.g_chunk_list =
            st.g_chunk_list ++ (st2.g_chunk_list.drop st.g_chunk_list.length).take j := by
  intro j
  induction j with
  | zero =>
    intro fuel pos first st hfuel _ hfail
    obtain ⟨fuel1, rfl⟩ : ∃ k, fuel = k + 1 := ⟨fuel - 1, by omega⟩
    by_cases hc : pos < file_size
    · by_cases h1 : env.kmalloc_ok st.n_kmalloc = true
      · have h2 : env.kmalloc_ok (st.n_kmalloc + 1) = false := by
          rcases hfail with h | h
          · rw [Nat.mul_zero, Nat.add_zero, h1] at h; cases h
          · simpa using h
        refine ⟨{ st with n_kmalloc := st.n_kmalloc + 1 + 1 }, ?_, ⟨[], by simp, by simp⟩,
          rfl, rfl, ?_⟩
        · rw [read_file_chunks_loop, if_pos hc, kmalloc_of_ok env st _ h1]
          simp only
          rw [kmalloc_of_fail env _ _ h2]
        · intro fuel2 st2 _
          simp
      · refine ⟨{ st with n_kmalloc := st.n_kmalloc + 1 }, ?_, ⟨[], by simp, by simp⟩,
          rfl, rfl, ?_⟩
        · rw [read_file_chunks_loop, if_pos hc, kmalloc_of_fail env st _ (by simpa using h1)]
        · intro fuel2 st2 _
          simp
    · refine ⟨st, loop_exit _ _ _ _ _ _ _ hc, ⟨[], by simp, by simp⟩, rfl, rfl, ?_⟩
      intro fuel2 st2 _
      simp
  | succ j ih =>
    intro fuel pos first st hfuel hbefore hfail
    obtain ⟨fuel1, rfl⟩ : ∃ k, fuel = k + 1 := ⟨fuel - 1, by omega⟩
    by_cases hc : pos < file_size
    · have h1 : env.kmalloc_ok st.n_kmalloc = true := hbefore 0 (by omega)
      have h2 : env.kmalloc_ok (st.n_kmalloc + 1) = true := hbefore 1 (by omega)
      rw [loop_step env f _ fuel1 _ _ st hc h1 h2]
      obtain ⟨a1, a2, a3, a4⟩ := fill_chunk_appends env f file_size pos first
        ((List.range get_default_payload_chunk_size).map (env.heap_garbage (st.n_kmalloc + 1)))
        { st with n_kmalloc := st.n_kmalloc + 1 + 1 }
      generalize hfc : fill_chunk env f file_size pos first
        ((List.range get_default_payload_chunk_size).map (env.heap_garbage (st.n_kmalloc + 1)))
        { st with n_kmalloc := st.n_kmalloc + 1 + 1 } = fc at a1 a2 a3 a4
      obtain ⟨st1, e1, ⟨cs, e2, e2l⟩, e3, e4, e5⟩ := ih fuel1 fc.2.1 false fc.2.2 (by omega)
        (by
          intro i hi
          rw [a4]
          have := hbefore (i + 2) (by omega)
          simpa [Nat.add_assoc, Nat.add_comm 2 i] using this)
        (by
          rw [a4]
          rcases hfail with h | h
          · left
            rw [← h]; congr 1; simp only; omega
          · right
            rw [← h]; congr 1; simp only; omega)
      simp only at a1 a2 a3
      refine ⟨st1, e1, ⟨fc.1 :: cs, ?_, by simp only [List.length_cons]; omega⟩, ?_, ?_, ?_⟩
      · rw [e2, a1]; simp
      · rw [e3, a2]
      · rw [e4, a3]
      · intro fuel2 st2 href
        cases fuel2 with
        | zero => simp [read_file_chunks_loop, hc] at href
        | succ fuel2 =>
          rw [loop_step (no_alloc_failure env) f _ fuel2 _ _ st hc rfl rfl,
            fill_chunk_no_alloc_failure, hfc] at href
          have h5 := e5 fuel2 st2 href
          obtain ⟨⟨cs2, k1⟩, -, -⟩ := loop_appends _ _ _ _ _ _ _ _ href
          rw [h5, a1, k1, a1]
          simp [List.append_assoc]
    · refine ⟨st, loop_exit _ _ _ _ _ _ _ hc, ⟨[], by simp, by simp⟩, rfl, rfl, ?_⟩
      intro fuel2 st2 href
      rw [loop_exit _ _ _ _ _ _ _ hc] at href
      cases href
      simp

/-- C10: when the first allocation failure in `read_file_chunks` happens while the
`k`-th chunk is built (the chunk struct, allocation `2 (k - 1)` of the call, or its
data buffer, allocation `2 (k - 1) + 1`), the call returns (fuel `k` is enough) and
the chunk queue is its old contents followed by at most `k - 1` new chunks, which
are exactly the first `k - 1` chunks that the same call appends when no allocation
fails; the request queue and the lock are as before. -/
theorem C10_alloc_failure_prefix (env : Env) (path : List Byte) (st : State) (fuel k : Nat)
    (hk : 1 ≤ k) (hfuel : k ≤ fuel)
    (hbefore : ∀ i, i < 2 * (k - 1) → env.kmalloc_ok (st.n_kmalloc + i) = true)
    (hfail : env.kmalloc_ok (st.n_kmalloc + 2 * (k - 1)) = false ∨
      env.kmalloc_ok (st.n_kmalloc + 2 * (k - 1) + 1) = false) :
    ∃ st1, read_file_chunks env fuel path st = some st1 ∧
      (∃ cs, st1.g_chunk_list = st.g_chunk_list ++ cs ∧ cs.length ≤ k - 1) ∧
      st1.g_requestd_files_list = st.g_requestd_files_list ∧
      st1.g_chunk_list_spinlock = st.g_chunk_list_spinlock ∧
      ∀ fuel2 st2, read_file_chunks (no_alloc_failure env) fuel2 path st = some st2 →
        st1.g_chunk_list =
          st.g_chunk_list ++ (st2.g_chunk_list.drop st.g_chunk_list.length).take (k - 1) := by
  have hopen : (no_alloc_failure env).filp_open path = env.filp_open path := rfl
  unfold read_file_chunks
  rw [hopen]
  cases hf : env.filp_open path with
  | none =>
    refine ⟨st, rfl, ⟨[], by simp, by simp⟩, rfl, rfl, ?_⟩
    intro fuel2 st2 h
    cases h
    simp
  | some f =>
    simp only
    by_cases hs : 0 ≠ f.llseek_set
    · rw [if_pos hs]
      refine ⟨st, rfl, ⟨[], by simp, by simp⟩, rfl, rfl, ?_⟩
      intro fuel2 st2 h
      rw [if_pos hs] at h
      cases h
      simp
    · rw [if_neg hs]
      obtain ⟨st1, e1, e2, e3, e4, e5⟩ := loop_alloc_failure env f f.llseek_end (k - 1) fuel
        f.llseek_set true st (by omega) hbefore hfail
      refine ⟨st1, e1, e2, e3, e4, ?_⟩
      intro fuel2 st2 h
      rw [if_neg hs] at h
      exact e5 fuel2 st2 h

/-- Witness of C10: a file of 200 bytes, the data buffer of the second chunk (the
fourth allocation) cannot be allocated. -/
theorem C10_alloc_failure_prefix_witness :
    ∃ st1, read_file_chunks (demo_env_alloc_failure (demo_file 200) 3) 200 [97] demo_state =
        some st1 ∧
      (∃ cs, st1.g_chunk_list = demo_state.g_chunk_list ++ cs ∧ cs.length ≤ 2 - 1) ∧
      st1.g_requestd_files_list = demo_state.g_requestd_files_list ∧
      st1.g_chunk_list_spinlock = demo_state.g_chunk_list_spinlock ∧
      ∀ fuel2 st2,
        read_file_chunks (no_alloc_failure (demo_env_alloc_failure (demo_file 200) 3)) fuel2 [97]
          demo_state = some st2 →
        st1.g_chunk_list = demo_state.g_chunk_list ++
          (st2.g_chunk_list.drop demo_state.g_chunk_list.length).take (2 - 1) :=
  C10_alloc_failure_prefix (demo_env_alloc_failure (demo_file 200) 3) [97] demo_state 200 2
    (by decide) (by decide)
    (fun i hi => by
      have : i = 0 ∨ i = 1 := by omega
      rcases this with h | h <;> subst h <;> rfl)
    (Or.inr rfl)

/-- C11, as the code has it: for a null destination buffer `generate_payload` returns
`-EINVAL`, copies nothing and leaves the length cell and the state (so the chunk
queue) unchanged. The size of a non-null buffer is not an argument of
`generate_payload` and is not checked: with the lock free and a chunk `c` at the
front, the call returns 0, copies the `chunk_size` bytes of `c`, sets the length
to `chunk_size` and removes `c` from the queue, whatever the size of the buffer. -/
theorem C11_null_buffer (buf : List Byte) (length : Nat) (st : State) (c : file_chunk)
    (rest : List file_chunk) (hlock : st.g_chunk_list_spinlock = false)
    (hq : st.g_chunk_list = c :: rest) :
    (∀ (length0 : Nat) (st0 : State),
      (generate_payload none length0 st0).ret = - EINVAL ∧
      (generate_payload none length0 st0).buffer = none ∧
      (generate_payload none length0 st0).length = length0 ∧
      (generate_payload none length0 st0).st = st0) ∧
    (generate_payload (some buf) length st).ret = 0 ∧
    (generate_payload (some buf) length st).buffer =
      some (memcpy buf 0 c.data c.chunk_size) ∧
    (generate_payload (some buf) length st).length = c.chunk_size ∧
    (generate_payload (some buf) length st).st.g_chunk_list = rest := by
  refine ⟨fun _ _ => ⟨rfl, rfl, rfl, rfl⟩, ?_, ?_, ?_, ?_⟩ <;>
    simp [generate_payload, hlock, hq]

/-- Witness of C11: a chunk of 4 bytes at the front and a buffer of 2 bytes. -/
theorem C11_null_buffer_witness :
    (∀ (length0 : Nat) (st0 : State),
      (generate_payload none length0 st0).ret = - EINVAL ∧
      (generate_payload none length0 st0).buffer = none ∧
      (generate_payload none length0 st0).length = length0 ∧
      (generate_payload none length0 st0).st = st0) ∧
    (generate_payload (some [0, 0]) 0 one_chunk_state).ret = 0 ∧
    (generate_payload (some [0, 0]) 0 one_chunk_state).buffer =
      some (memcpy [0, 0] 0 [1, 2, 3, 4] 4) ∧
    (generate_payload (some [0, 0]) 0 one_chunk_state).length = 4 ∧
    (generate_payload (some [0, 0]) 0 one_chunk_state).st.g_chunk_list = [] :=
  C11_null_buffer [0, 0] 0 one_chunk_state ⟨[1, 2, 3, 4], 4⟩ [] rfl rfl

/-- Counterexample to C11 as stated: a buffer of 2 bytes is undersized for the chunk
of 4 bytes at the front of the queue, yet `generate_payload` returns 0 and not
`-EINVAL`, copies the 4 bytes (2 of them past the end of the buffer) and removes
the chunk from the queue. -/
theorem C11_counterexample :
    (generate_payload (some [0, 0]) 0 one_chunk_state).ret = 0 ∧
    (generate_payload (some [0, 0]) 0 one_chunk_state).ret ≠ - EINVAL ∧
    (generate_payload (some [0, 0]) 0 one_chunk_state).buffer = some [1, 2, 3, 4] ∧
    (generate_payload (some [0, 0]) 0 one_chunk_state).st.g_chunk_list = [] ∧
    one_chunk_state.g_chunk_list = [⟨[1, 2, 3, 4], 4⟩] := by
  decide

/-- C12: with the lock a flag of the state, when `g_chunk_list_spinlock` is held
`generate_payload` called with a non-null buffer returns `-EIO` (the model is a
total function without a loop: the call does not wait) and leaves the state (so
the chunk queue), the destination buffer and the length cell unchanged. -/
theorem C12_lock_held (buf : List Byte) (length : Nat) (st : State)
    (hlock : st.g_chunk_list_spinlock = true) :
    (generate_payload (some buf) length st).ret = - EIO ∧
    (generate_payload (some buf) length st).buffer = some buf ∧
    (generate_payload (some buf) length st).length = length ∧
    (generate_payload (some buf) length st).st = st := by
  simp [generate_payload, hlock]

/-- Witness of C12: a chunk is queued and the lock is held. -/
theorem C12_lock_held_witness :
    (generate_payload (some demo_buffer) 7 locked_state).ret = - EIO ∧
    (generate_payload (some demo_buffer) 7 locked_state).buffer = some demo_buffer ∧
    (generate_payload (some demo_buffer) 7 locked_state).length = 7 ∧
    (generate_payload (some demo_buffer) 7 locked_state).st = locked_state :=
  C12_lock_held demo_buffer 7 locked_state rfl

theorem memcpy_file_path (p buf : List Byte) (hbuf : buf.length = strlen p) :
    memcpy buf 0 (p ++ [0]) (strlen p + 1) = c_str p ++ [0] := by
  simp only [memcpy, List.take_zero, List.nil_append, Nat.zero_add, take_strlen_succ]
  rw [List.drop_of_length_le (by omega), List.append_nil]

/-- C15, evaluated on the code: for every path `p` the buffer of the local copy has
`strlen p` bytes, and `process_next_pending_file` writes at index `strlen p`
(the terminating zero byte, written by the `memcpy` and again by the
assignment), which is not inside the buffer; a buffer of `strlen p + 1` bytes
would hold every write. In `process_next_pending_file` the copy made by the
`memcpy` is one byte longer than the buffer that `kmalloc` returned. For the path
`/tmp/abc` the buffer has 8 bytes and the write indices are 0 .. 8 and 8. -/
theorem C15_write_past_end (p : List Byte) :
    strlen p ∈ file_path_write_indices p ∧
    ¬ (strlen p < file_path_alloc_size p) ∧
    ¬ (∀ i ∈ file_path_write_indices p, i < file_path_alloc_size p) ∧
    (∀ i ∈ file_path_write_indices p, i < file_path_alloc_size p + 1) ∧
    (∀ garbage : Nat → Byte,
      (memcpy ((List.range (file_path_alloc_size p)).map garbage) 0 (p ++ [0])
        (strlen p + 1)).length = file_path_alloc_size p + 1) ∧
    file_path_alloc_size demo_path = 8 ∧
    file_path_write_indices demo_path = [0, 1, 2, 3, 4, 5, 6, 7, 8, 8] := by
  have hmem : strlen p ∈ file_path_write_indices p := by
    simp [file_path_write_indices]
  refine ⟨hmem, by simp [file_path_alloc_size], ?_, ?_, ?_, by decide, by decide⟩
  · intro h
    have := h _ hmem
    simp [file_path_alloc_size] at this
  · intro i hi
    simp only [file_path_write_indices, List.mem_append, List.mem_range, List.mem_singleton] at hi
    simp only [file_path_alloc_size]
    omega
  · intro garbage
    rw [memcpy_file_path p _ (by simp [file_path_alloc_size])]
    simp [file_path_alloc_size, strlen]

theorem pieces_map_length (C : Nat) (l : List Byte) :
    (pieces C l).map List.length = piece_lengths C l.length := by
  simp [pieces, piece_lengths, ceil_div, List.length_take, List.length_drop]

theorem piece_lengths_getElem (C n i : Nat) (hC : 0 < C) (hi : i + 1 < ceil_div n C) :
    (piece_lengths C n)[i]? = some C := by
  have hk := (ceil_div_spec n C hC).2
  have h1 : C * (i + 2) ≤ ceil_div n C * C := by
    rw [Nat.mul_comm]
    exact Nat.mul_le_mul_right C (by omega)
  have h2 : C * (i + 2) = C * i + C + C := by ring
  unfold piece_lengths
  rw [List.getElem?_map, List.getElem?_range (by omega)]
  simp only [Option.map_some']
  congr 1
  omega

theorem piece_lengths_getLast (C n : Nat) (hC : 0 < C) (hn : 0 < n) :
    (piece_lengths C n).getLast? = some (n - C * (ceil_div n C - 1)) ∧
    1 ≤ n - C * (ceil_div n C - 1) ∧ n - C * (ceil_div n C - 1) ≤ C := by
  obtain ⟨hk1, hk2⟩ := ceil_div_spec n C hC
  have hkpos : 0 < ceil_div n C := by
    rcases Nat.eq_zero_or_pos (ceil_div n C) with h | h
    · rw [h] at hk1; omega
    · exact h
  have h1 : ceil_div n C * C = C * (ceil_div n C - 1) + C := by
    have : ceil_div n C = (ceil_div n C - 1) + 1 := by omega
    conv_lhs => rw [this]
    ring
  refine ⟨?_, by omega, by omega⟩
  unfold piece_lengths
  rw [List.getLast?_eq_getElem?, List.getElem?_map, List.length_map, List.length_range,
    List.getElem?_range (by omega)]
  simp only [Option.map_some']
  congr 1
  omega

theorem piece_lengths_head (C n : Nat) (hC : 0 < C) (hn : 0 < n) :
    (piece_lengths C n).head? = some (min C n) := by
  obtain ⟨hk1, hk2⟩ := ceil_div_spec n C hC
  have hkpos : ceil_div n C ≠ 0 := by
    intro h; rw [h] at hk1; omega
  unfold piece_lengths
  rw [List.head?_map, List.head?_range, if_neg hkpos]
  simp

theorem chunk_sizes_eq (cs : List file_chunk)
    (h : ∀ c ∈ cs, c.payload.length = c.chunk_size) :
    cs.map file_chunk.chunk_size = (cs.map file_chunk.payload).map List.length := by
  rw [List.map_map]
  apply List.map_congr_left
  intro c hc
  exact (h c hc).symm

/-- The chunk sizes that `read_file_chunks` produces for a non-empty regular file
when every read is complete. -/
theorem read_file_chunks_sizes (env : Env) (path : List Byte) (f : File) (st : State)
    (fuel S : Nat) (hopen : env.filp_open path = some f) (hreg : regular_file f)
    (halloc : allocs_succeed env) (hexact : reads_exact env)
    (hS : f.content.length = S) (hpos : 0 < S) (hfuel : S ≤ fuel) :
    ∃ st1 cs, read_file_chunks env fuel path st = some st1 ∧
      st1.g_chunk_list = st.g_chunk_list ++ cs ∧
      cs.map file_chunk.chunk_size = piece_lengths 64 (S + 16) := by
  obtain ⟨st1, c, rest, e1, e2, -, -, b3, -, -, e4, -, -, e5, -⟩ :=
    read_file_chunks_regular env path f st fuel S hopen hreg halloc
      (reads_exact_progress env hexact) hS hpos hfuel
  refine ⟨st1, c :: rest, e1, e2, ?_⟩
  have hall : ∀ c1 ∈ c :: rest, c1.payload.length = c1.chunk_size := by
    intro c1 hc1
    rcases List.mem_cons.mp hc1 with h | h
    · rw [h]; exact b3
    · exact (e4 c1 h).2.2.1
  rw [chunk_sizes_eq _ hall, e5 hexact, pieces_map_length, List.length_append,
    file_header_length, hS, Nat.add_comm]

theorem pieces_flatten (C : Nat) (hC : 0 < C) :
    ∀ (n : Nat) (l : List Byte), l.length ≤ n → (pieces C l).flatten = l := by
  intro n
  induction n with
  | zero =>
    intro l hl
    have : l = [] := List.length_eq_zero.mp (by omega)
    rw [this, pieces_nil C hC]
    rfl
  | succ n ih =>
    intro l hl
    by_cases hnil : l = []
    · rw [hnil, pieces_nil C hC]
      rfl
    · have hpos : 0 < l.length := List.length_pos.mpr hnil
      rw [pieces_cons C hC l hnil, List.flatten_cons,
        ih (l.drop C) (by rw [List.length_drop]; omega), List.take_append_drop]

theorem piece_lengths_sum (C n : Nat) (hC : 0 < C) : (piece_lengths C n).sum = n := by
  have h := pieces_map_length C (List.replicate n (0 : Byte))
  rw [List.length_replicate] at h
  rw [← h, ← List.length_flatten, pieces_flatten C hC n _ (by simp)]
  simp

/-- C13: for a file of `S > 0` bytes, with allocations succeeding and every read
returning exactly the bytes requested, `read_file_chunks` returns and the lengths
of the chunks it appends are: first chunk `16 + min 48 S`; every chunk other than
the last exactly 64; the last chunk the remaining bytes, between 1 and 64; the
lengths sum to `S + 16`. For `S = 200` the lengths are 64, 64, 64, 24. -/
theorem C13_chunk_lengths (env : Env) (path : List Byte) (f : File) (st : State)
    (fuel : Nat) (hopen : env.filp_open path = some f) (hreg : regular_file f)
    (halloc : allocs_succeed env) (hexact : reads_exact env)
    (hpos : 0 < f.content.length) (hfuel : f.content.length ≤ fuel) :
    ∃ st1 cs, read_file_chunks env fuel path st = some st1 ∧
      st1.g_chunk_list = st.g_chunk_list ++ cs ∧
      (cs.map file_chunk.chunk_size).head? = some (16 + min 48 f.content.length) ∧
      (∀ i, i + 1 < cs.length → (cs.map file_chunk.chunk_size)[i]? = some 64) ∧
      (cs.map file_chunk.chunk_size).getLast? =
        some (f.content.length + 16 - 64 * (cs.length - 1)) ∧
      1 ≤ f.content.length + 16 - 64 * (cs.length - 1) ∧
      f.content.length + 16 - 64 * (cs.length - 1) ≤ 64 ∧
      (cs.map file_chunk.chunk_size).sum = f.content.length + 16 ∧
      (f.content.length = 200 → cs.map file_chunk.chunk_size = [64, 64, 64, 24]) := by
  obtain ⟨st1, cs, e1, e2, e3⟩ := read_file_chunks_sizes env path f st fuel f.content.length
    hopen hreg halloc hexact rfl hpos hfuel
  have hlen : cs.length = ceil_div (f.content.length + 16) 64 := by
    have := congrArg List.length e3
    simpa [piece_lengths] using this
  obtain ⟨l1, l2, l3⟩ := piece_lengths_getLast 64 (f.content.length + 16) (by omega) (by omega)
  refine ⟨st1, cs, e1, e2, ?_, ?_, ?_, ?_, ?_, ?_, ?_⟩
  · rw [e3, piece_lengths_head 64 _ (by omega) (by omega)]
    congr 1
    omega
  · intro i hi
    rw [e3]
    exact piece_lengths_getElem 64 _ i (by omega) (by omega)
  · rw [e3, hlen]; exact l1
  · rw [hlen]; exact l2
  · rw [hlen]; exact l3
  · rw [e3]; exact piece_lengths_sum 64 _ (by omega)
  · intro h200
    rw [e3, h200]
    decide

/-- Witness of C13: a file of 200 bytes gives chunks of 64, 64, 64 and 24 bytes. -/
theorem C13_chunk_lengths_witness :
    ∃ st1 cs, read_file_chunks (demo_env (demo_file 200)) 200 [97] demo_state = some st1 ∧
      st1.g_chunk_list = demo_state.g_chunk_list ++ cs ∧
      cs.map file_chunk.chunk_size = [64, 64, 64, 24] := by
  obtain ⟨st1, cs, h1, h2, -, -, -, -, -, -, h3⟩ :=
    C13_chunk_lengths (demo_env (demo_file 200)) [97] (demo_file 200) demo_state 200 rfl
      (by simp [regular_file, demo_file, LOFF_T_LIMIT]) (fun _ => rfl) (fun _ _ => rfl)
      (by simp [demo_file]) (by simp [demo_file])
  exact ⟨st1, cs, h1, h2, h3 (by simp [demo_file])⟩

theorem progress_read (env : Env) (hreads : reads_progress env) (n count : Nat)
    (hc : 1 ≤ count) :
    ∃ r : Nat, env.vfs_read_ret n count = (r : Int) ∧ 1 ≤ r ∧ r ≤ count := by
  obtain ⟨h1, h2⟩ := hreads n count hc
  exact ⟨(env.vfs_read_ret n count).toNat, by omega, by omega, by omega⟩

/-- Termination of the loop after the first chunk, whatever the allocations do:
with reads that make progress, fuel `S - p` is enough from offset `p`. -/
theorem loop_terminates_later (env : Env) (f : File) (S : Nat)
    (hreads : reads_progress env) (hS : f.content.length = S) (hlim : S < LOFF_T_LIMIT) :
    ∀ (fuel p : Nat) (st : State), p ≤ S → S - p ≤ fuel →
      ∃ st1, read_file_chunks_loop env f (S : Int) fuel (p : Int) false st = some st1 := by
  intro fuel
  induction fuel with
  | zero =>
    intro p st hp hfuel
    exact ⟨st, loop_exit _ _ _ _ _ _ _ (by omega)⟩
  | succ fuel ih =>
    intro p st hp hfuel
    by_cases hlt : p < S
    · have hlt2 : (p : Int) < (S : Int) := by omega
      by_cases h1 : env.kmalloc_ok st.n_kmalloc = true
      · by_cases h2 : env.kmalloc_ok (st.n_kmalloc + 1) = true
        · obtain ⟨r, hr, hr1, hr2⟩ := progress_read env hreads st.n_vfs_read (min 64 (S - p))
            (by omega)
          obtain ⟨c, hc, -⟩ := fill_chunk_later_spec env f
            { st with n_kmalloc := st.n_kmalloc + 1 + 1 }
            ((List.range get_default_payload_chunk_size).map
              (env.heap_garbage (st.n_kmalloc + 1)))
            S p r hS hlim hlt hr hr2
          rw [loop_step env f _ fuel _ _ st hlt2 h1 h2, hc]
          exact ih (p + r) _ (by omega) (by omega)
        · refine ⟨{ st with n_kmalloc := st.n_kmalloc + 1 + 1 }, ?_⟩
          rw [read_file_chunks_loop, if_pos hlt2, kmalloc_of_ok env st _ h1]
          simp only
          rw [kmalloc_of_fail env _ _ (by simpa using h2)]
      · refine ⟨{ st with n_kmalloc := st.n_kmalloc + 1 }, ?_⟩
        rw [read_file_chunks_loop, if_pos hlt2, kmalloc_of_fail env st _ (by simpa using h1)]
    · exact ⟨st, loop_exit _ _ _ _ _ _ _ (by omega)⟩

/-- Termination of `read_file_chunks` on a regular file of `S` bytes with fuel `S`,
whatever the allocations do, when every read makes progress. -/
theorem read_file_chunks_terminates (env : Env) (path : List Byte) (f : File) (st : State)
    (fuel : Nat) (hopen : env.filp_open path = some f) (hreg : regular_file f)
    (hreads : reads_progress env) (hfuel : f.content.length ≤ fuel) :
    ∃ st1, read_file_chunks env fuel path st = some st1 := by
  by_cases h0 : f.content.length = 0
  · exact ⟨st, read_file_chunks_empty env path f st fuel hopen hreg h0⟩
  · obtain ⟨g1, g2, g3⟩ := hreg
    obtain ⟨fuel1, rfl⟩ : ∃ k, fuel = k + 1 := ⟨fuel - 1, by omega⟩
    have hlt2 : (0 : Int) < (f.content.length : Int) := by omega
    simp only [read_file_chunks, hopen, g1, g2, ne_eq, not_true_eq_false, if_false]
    by_cases h1 : env.kmalloc_ok st.n_kmalloc = true
    · by_cases h2 : env.kmalloc_ok (st.n_kmalloc + 1) = true
      · obtain ⟨r, hr, hr1, hr2⟩ := progress_read env hreads st.n_vfs_read
          (min 48 f.content.length) (by omega)
        obtain ⟨c, hc, -⟩ := fill_chunk_first_spec env f
          { st with n_kmalloc := st.n_kmalloc + 1 + 1 }
          ((List.range get_default_payload_chunk_size).map
            (env.heap_garbage (st.n_kmalloc + 1)))
          f.content.length r rfl g3 hr hr2
        rw [loop_step env f _ fuel1 _ _ st hlt2 h1 h2, hc]
        exact loop_terminates_later env f _ hreads rfl g3 fuel1 r _ (by omega) (by omega)
      · refine ⟨{ st with n_kmalloc := st.n_kmalloc + 1 + 1 }, ?_⟩
        rw [read_file_chunks_loop, if_pos hlt2, kmalloc_of_ok env st _ h1]
        simp only
        rw [kmalloc_of_fail env _ _ (by simpa using h2)]
    · refine ⟨{ st with n_kmalloc := st.n_kmalloc + 1 }, ?_⟩
      rw [read_file_chunks_loop, if_pos hlt2, kmalloc_of_fail env st _ (by simpa using h1)]

/-- With reads that return 0 bytes and allocations that succeed, the loop does not
leave an offset `p` below the file size: no fuel is enough. -/
theorem loop_zero_reads (env : Env) (f : File) (S : Nat)
    (halloc : allocs_succeed env) (hzero : reads_zero env)
    (hS : f.content.length = S) (hlim : S < LOFF_T_LIMIT) :
    ∀ (fuel p : Nat) (st : State), p < S →
      read_file_chunks_loop env f (S : Int) fuel (p : Int) false st = none := by
  intro fuel
  induction fuel with
  | zero =>
    intro p st hp
    have hlt2 : (p : Int) < (S : Int) := by omega
    simp [read_file_chunks_loop, hlt2]
  | succ fuel ih =>
    intro p st hp
    have hlt2 : (p : Int) < (S : Int) := by omega
    obtain ⟨c, hc, -⟩ := fill_chunk_later_spec env f
      { st with n_kmalloc := st.n_kmalloc + 1 + 1 }
      ((List.range get_default_payload_chunk_size).map (env.heap_garbage (st.n_kmalloc + 1)))
      S p 0 hS hlim hp (hzero _ _) (by omega)
    rw [loop_step env f _ fuel _ _ st hlt2 (halloc _) (halloc _), hc]
    exact ih (p + 0) _ (by omega)

theorem read_file_chunks_zero_reads (env : Env) (path : List Byte) (f : File) (st : State)
    (fuel : Nat) (hopen : env.filp_open path = some f) (hreg : regular_file f)
    (halloc : allocs_succeed env) (hzero : reads_zero env) (hpos : 0 < f.content.length) :
    read_file_chunks env fuel path st = none := by
  obtain ⟨g1, g2, g3⟩ := hreg
  have hlt2 : (0 : Int) < (f.content.length : Int) := by omega
  simp only [read_file_chunks, hopen, g1, g2, ne_eq, not_true_eq_false, if_false]
  cases fuel with
  | zero => simp [read_file_chunks_loop, hlt2]
  | succ fuel =>
    obtain ⟨c, hc, -⟩ := fill_chunk_first_spec env f
      { st with n_kmalloc := st.n_kmalloc + 1 + 1 }
      ((List.range get_default_payload_chunk_size).map (env.heap_garbage (st.n_kmalloc + 1)))
      f.content.length 0 rfl g3 (hzero _ _) (by omega)
    rw [loop_step env f _ fuel _ _ st hlt2 (halloc _) (halloc _), hc]
    exact loop_zero_reads env f _ halloc hzero rfl g3 fuel 0 _ hpos

/-- C14: for a file of `S` bytes and every read behaviour in which each read returns
at least 1 and at most the requested number of bytes (whatever the allocations
do), the loop of `read_file_chunks` ends after at most `S` passes: the call
returns with every fuel of at least `S`, the fuel being the number of passes
allowed. Every pass moves `current_position` strictly forward and not past the
file size. The progress hypothesis is needed: in a kernel `env0` whose reads
return 0 bytes (allocations succeeding) the call on a non-empty file returns with
no fuel at all. -/
theorem C14_loop_terminates (env env0 : Env) (path : List Byte) (f : File) (st : State)
    (hopen : env.filp_open path = some f) (hopen0 : env0.filp_open path = some f)
    (hreg : regular_file f) (hreads : reads_progress env)
    (halloc0 : allocs_succeed env0) (hzero : reads_zero env0) :
    (∀ fuel, f.content.length ≤ fuel → ∃ st1, read_file_chunks env fuel path st = some st1) ∧
    (∀ (p : Nat) (data : List Byte) (st0 : State), p < f.content.length →
      (p : Int) < (fill_chunk env f (f.content.length : Int) (p : Int) false data st0).2.1 ∧
      (fill_chunk env f (f.content.length : Int) (p : Int) false data st0).2.1 ≤
        (f.content.length : Int)) ∧
    (∀ (data : List Byte) (st0 : State), 0 < f.content.length →
      (0 : Int) < (fill_chunk env f (f.content.length : Int) 0 true data st0).2.1 ∧
      (fill_chunk env f (f.content.length : Int) 0 true data st0).2.1 ≤
        (f.content.length : Int)) ∧
    (0 < f.content.length → ∀ fuel, read_file_chunks env0 fuel path st = none) := by
  refine ⟨?_, ?_, ?_, ?_⟩
  · intro fuel hfuel
    exact read_file_chunks_terminates env path f st fuel hopen hreg hreads hfuel
  · intro p data st0 hp
    obtain ⟨r, hr, hr1, hr2⟩ := progress_read env hreads st0.n_vfs_read
      (min 64 (f.content.length - p)) (by omega)
    obtain ⟨c, hc, -⟩ := fill_chunk_later_spec env f st0 data f.content.length p r rfl
      hreg.2.2 hp hr hr2
    rw [hc]
    simp only
    omega
  · intro data st0 hpos
    obtain ⟨r, hr, hr1, hr2⟩ := progress_read env hreads st0.n_vfs_read
      (min 48 f.content.length) (by omega)
    obtain ⟨c, hc, -⟩ := fill_chunk_first_spec env f st0 data f.content.length r rfl
      hreg.2.2 hr hr2
    rw [hc]
    simp only
    omega
  · intro hpos fuel
    exact read_file_chunks_zero_reads env0 path f st fuel hopen0 hreg halloc0 hzero hpos

/-- Witness of C14: a file of 100 bytes, read 7 bytes at a time, and the same file
in a kernel whose reads return 0 bytes. -/
theorem C14_loop_terminates_witness :
    (∃ st1, read_file_chunks (demo_env_short (demo_file 100) 7) 100 [97] demo_state =
      some st1) ∧
    (∀ fuel, read_file_chunks (demo_env_zero (demo_file 100)) fuel [97] demo_state = none) := by
  obtain ⟨h1, -, -, h2⟩ :=
    C14_loop_terminates (demo_env_short (demo_file 100) 7) (demo_env_zero (demo_file 100))
      [97] (demo_file 100) demo_state rfl rfl
      (by simp [regular_file, demo_file, LOFF_T_LIMIT])
      (fun _ count h => by
        show (1 : Int) ≤ ((min 7 count : Nat) : Int) ∧ ((min 7 count : Nat) : Int) ≤ (count : Int)
        omega)
      (fun _ => rfl) (fun _ _ => rfl)
  exact ⟨h1 100 (by simp [demo_file]), h2 (by simp [demo_file])⟩

end PayloadGenerator
